import Mathlib

/-!
Verification development for the `lancom_ble` Home Assistant integration
(`custom_components/lancom_ble/__init__.py` and `sensor.py`).

The Python source is shallowly embedded: pure helpers become Lean functions
on `String` / `List Char`, the stateful scanner and manager become explicit
state-passing functions over structures, Python `float` monotonic times are
modelled as `ℚ`, and the host device registry (an external Home Assistant
collaborator, not code of this repository) is modelled as a list of entries
with the operations the source calls on it.
-/

namespace LancomBLE

/-! ## ASCII case mapping (model of Python `str.upper` / `str.lower`)

Python's `str.upper`/`str.lower` are modelled on the ASCII letters, which is
all the source manipulates (MAC addresses, fixed labels). -/

def lowerUpperPairs : List (Char × Char) :=
  [('a','A'),('b','B'),('c','C'),('d','D'),('e','E'),('f','F'),('g','G'),
   ('h','H'),('i','I'),('j','J'),('k','K'),('l','L'),('m','M'),('n','N'),
   ('o','O'),('p','P'),('q','Q'),('r','R'),('s','S'),('t','T'),('u','U'),
   ('v','V'),('w','W'),('x','X'),('y','Y'),('z','Z')]

def upChar (c : Char) : Char :=
  match lowerUpperPairs.find? (fun p => p.1 = c) with
  | some p => p.2
  | none => c

def loChar (c : Char) : Char :=
  match lowerUpperPairs.find? (fun p => p.2 = c) with
  | some p => p.1
  | none => c

/-- Model of Python `str.upper` (ASCII). -/
def upperStr (s : String) : String := ⟨s.data.map upChar⟩

/-- Model of Python `str.lower` (ASCII). -/
def lowerStr (s : String) : String := ⟨s.data.map loChar⟩

theorem upChar_of_pair {p : Char × Char} (hp : p ∈ lowerUpperPairs) :
    upChar p.1 = p.2 ∧ upChar p.2 = p.2 ∧ loChar p.2 = p.1 ∧ loChar p.1 = p.1 := by
  fin_cases hp <;> exact ⟨rfl, rfl, rfl, rfl⟩

theorem upChar_upChar (c : Char) : upChar (upChar c) = upChar c := by
  cases h : lowerUpperPairs.find? (fun p => p.1 = c) with
  | none => unfold upChar; rw [h]; rw [h]
  | some p =>
      have hmem := List.mem_of_find?_eq_some h
      have h2 := (upChar_of_pair hmem).2.1
      unfold upChar; rw [h]
      unfold upChar at h2
      exact h2

theorem upChar_loChar_upChar (c : Char) :
    upChar (loChar (upChar c)) = upChar c := by
  cases h : lowerUpperPairs.find? (fun p => p.1 = c) with
  | some p =>
      have hmem := List.mem_of_find?_eq_some h
      obtain ⟨h1, _, h3, _⟩ := upChar_of_pair hmem
      have hc : upChar c = p.2 := by unfold upChar; rw [h]
      rw [hc, h3, h1]
  | none =>
      have hc : upChar c = c := by unfold upChar; rw [h]
      rw [hc]
      cases h' : lowerUpperPairs.find? (fun p => p.2 = c) with
      | some q =>
          have hqmem := List.mem_of_find?_eq_some h'
          have hq' := List.find?_some h'
          have hq : q.2 = c := by simpa using hq'
          obtain ⟨h1, _, _, _⟩ := upChar_of_pair hqmem
          have hl : loChar c = q.1 := by unfold loChar; rw [h']
          rw [hl, h1, hq]
      | none =>
          have : loChar c = c := by unfold loChar; rw [h']
          rw [this, hc]

theorem upperStr_upperStr (s : String) : upperStr (upperStr s) = upperStr s := by
  unfold upperStr
  cases s with
  | mk data =>
      simp only [List.map_map]
      congr 1
      exact List.map_congr_left (fun c _ => upChar_upChar c)

theorem upperStr_lowerStr_upperStr (s : String) :
    upperStr (lowerStr (upperStr s)) = upperStr s := by
  unfold upperStr lowerStr
  cases s with
  | mk data =>
      simp only [List.map_map]
      congr 1
      exact List.map_congr_left (fun c _ => upChar_loChar_upChar c)

/-! ## Python whitespace and stripping -/

/-- Python `\s` / `str.strip` whitespace characters (ASCII). -/
def isWsChar (c : Char) : Bool :=
  c = ' ' ∨ c = '\t' ∨ c = '\n' ∨ c = '\x0d' ∨ c = '\x0b' ∨ c = '\x0c'

/-- Model of Python `str.strip()` (ASCII whitespace). -/
def pyStripList (l : List Char) : List Char :=
  ((l.dropWhile isWsChar).reverse.dropWhile isWsChar).reverse

def pyStrip (s : String) : String := ⟨pyStripList s.data⟩

/-! ## Hex characters and MAC formatting -/

/-- Characters kept by `re.sub(r"[^0-9A-Fa-f]", "", raw)`. -/
def isHexChar (c : Char) : Bool :=
  (48 ≤ c.toNat ∧ c.toNat ≤ 57) ∨ (65 ≤ c.toNat ∧ c.toNat ≤ 70) ∨
    (97 ≤ c.toNat ∧ c.toNat ≤ 102)

/-- `":".join(s[i:i+2] for i in range(0, 12, 2))`: interleave a colon after
every pair of characters (the source only applies this to 12-char lists). -/
def groupPairsColon : List Char → List Char
  | a :: b :: c :: rest => a :: b :: ':' :: groupPairsColon (c :: rest)
  | l => l

/-- `format_ble_mac` (`__init__.py` lines 90-97): normalize input to
`AA:BB:CC:DD:EE:FF` (uppercase); keep the uppercased original when the
filtered hex content does not have length 12; return empty input as is. -/
def format_ble_mac (raw : String) : String :=
  if raw = "" then raw
  else
    let s := raw.data.filter isHexChar
    if s.length ≠ 12 then upperStr raw
    else upperStr ⟨groupPairsColon s⟩

/-- `identifier_for` (`__init__.py` lines 100-102):
`f"lancom_ble_{mac_upper.lower().replace(':', '_')}"`. -/
def identifier_for (mac_upper : String) : String :=
  ⟨"lancom_ble_".data ++
    (lowerStr mac_upper).data.map (fun c => if c = ':' then '_' else c)⟩

/-- `DOMAIN` from `const.py`. -/
def DOMAIN : String := "lancom_ble"

/-- `mac_connection_only` (`__init__.py` lines 132-134): the singleton
connection set `{("mac", mac_upper.lower())}`, modelled as a one-element
list. -/
def mac_connection_only (mac_upper : String) : List (String × String) :=
  [("mac", lowerStr mac_upper)]

/-! ## `normalize_input_mac_list` (`__init__.py` lines 105-129) -/

/-- The raw argument of `normalize_input_mac_list`: `str | list[str] | None`. -/
inductive RawInput where
  | null
  | str (s : String)
  | list (l : List String)

/-- The sequential `tmp.replace(ch, "\n")` for `ch` in `[",", ";", "\n", " "]`
replaces each separator character by a newline. -/
def sepToNl (c : Char) : Char :=
  if c = ',' ∨ c = ';' ∨ c = '\n' ∨ c = ' ' then '\n' else c

/-- Python `str.split(sep)` for a one-character separator: split at every
occurrence, keeping empty pieces. -/
def splitOnChar (sep : Char) : List Char → List (List Char)
  | [] => [[]]
  | c :: rest =>
      if c = sep then [] :: splitOnChar sep rest
      else
        match splitOnChar sep rest with
        | g :: gs => (c :: g) :: gs
        | [] => [[c]]

/-- The token list the `for item in items` loop iterates over. -/
def tokensOf : RawInput → List String
  | .null => []
  | .list l => l
  | .str s => (splitOnChar '\n' (s.data.map sepToNl)).map (fun l => (⟨l⟩ : String))

/-- Count of a character in a string (Python `str.count` of a 1-char needle). -/
def countChar (s : String) (c : Char) : Nat := s.data.count c

/-- String comparison used to model Python `sorted` on strings:
lexicographic by code point. -/
def leListChar : List Char → List Char → Bool
  | [], _ => true
  | _ :: _, [] => false
  | a :: as, b :: bs =>
      if a.toNat < b.toNat then true
      else if b.toNat < a.toNat then false
      else leListChar as bs

def strLe (s t : String) : Bool := leListChar s.data t.data

theorem leListChar_total (a b : List Char) :
    leListChar a b = true ∨ leListChar b a = true := by
  induction a generalizing b with
  | nil => left; rfl
  | cons x xs ih =>
      cases b with
      | nil => right; rfl
      | cons y ys =>
          by_cases hxy : x.toNat < y.toNat
          · left; simp [leListChar, hxy]
          · by_cases hyx : y.toNat < x.toNat
            · right; simp [leListChar, hyx]
            · rcases ih ys with h | h
              · left; simpa [leListChar, hxy, hyx] using h
              · right; simpa [leListChar, hxy, hyx] using h

theorem leListChar_trans {a b c : List Char}
    (hab : leListChar a b = true) (hbc : leListChar b c = true) :
    leListChar a c = true := by
  induction a generalizing b c with
  | nil => rfl
  | cons x xs ih =>
      cases b with
      | nil => simp [leListChar] at hab
      | cons y ys =>
          cases c with
          | nil => simp [leListChar] at hbc
          | cons z zs =>
              simp only [leListChar] at hab hbc ⊢
              rcases Nat.lt_trichotomy x.toNat y.toNat with hxy | hxy | hxy
              · rcases Nat.lt_trichotomy y.toNat z.toNat with hyz | hyz | hyz
                · simp [show x.toNat < z.toNat by omega]
                · simp [show x.toNat < z.toNat by omega]
                · rw [if_neg (by omega), if_pos (by omega)] at hbc
                  simp at hbc
              · rw [if_neg (by omega), if_neg (by omega)] at hab
                rcases Nat.lt_trichotomy y.toNat z.toNat with hyz | hyz | hyz
                · simp [show x.toNat < z.toNat by omega]
                · rw [if_neg (by omega), if_neg (by omega)] at hbc
                  rw [if_neg (by omega), if_neg (by omega)]
                  exact ih hab hbc
                · rw [if_neg (by omega), if_pos (by omega)] at hbc
                  simp at hbc
              · rw [if_neg (by omega), if_pos (by omega)] at hab
                simp at hab

theorem strLe_total (a b : String) : strLe a b = true ∨ strLe b a = true :=
  leListChar_total a.data b.data

theorem strLe_trans {a b c : String}
    (hab : strLe a b = true) (hbc : strLe b c = true) : strLe a c = true :=
  leListChar_trans hab hbc

/-- Insertion into a sorted list; `pySort` models Python `sorted`
(an ascending stable sort; on the duplicate-free lists it is applied to,
any correct ascending sort produces the same list). -/
def insertSorted (x : String) : List String → List String
  | [] => [x]
  | y :: ys => if strLe x y then x :: y :: ys else y :: insertSorted x ys

def pySort (l : List String) : List String := l.foldr insertSorted []

/-- `normalize_input_mac_list` (`__init__.py` lines 105-129): split the raw
input into tokens, strip each, drop empties, normalize with
`format_ble_mac`, keep those whose normal form has five colons and length
17, and return `sorted(set(out))`. -/
def normalize_input_mac_list (raw : RawInput) : List String :=
  let items := tokensOf raw
  let out := items.foldl
    (fun acc item =>
      let it := pyStrip item
      if it = "" then acc
      else
        let fm := format_ble_mac it
        if countChar fm ':' = 5 ∧ fm.length = 17 then acc ++ [fm] else acc)
    []
  pySort out.dedup

/-- Per-token normalization: the body of the `for item in items` loop as a
partial map (`none` when the token is dropped). -/
def tokenNorm (item : String) : Option String :=
  let it := pyStrip item
  if it = "" then none
  else
    let fm := format_ble_mac it
    if countChar fm ':' = 5 ∧ fm.length = 17 then some fm else none

theorem normalize_out_eq_filterMap (items : List String) (acc : List String) :
    items.foldl
      (fun acc item =>
        let it := pyStrip item
        if it = "" then acc
        else
          let fm := format_ble_mac it
          if countChar fm ':' = 5 ∧ fm.length = 17 then acc ++ [fm] else acc)
      acc = acc ++ items.filterMap tokenNorm := by
  induction items generalizing acc with
  | nil => simp
  | cons item rest ih =>
      simp only [List.foldl_cons, List.filterMap_cons, tokenNorm]
      by_cases h1 : pyStrip item = ""
      · simp only [h1, if_true, eq_self_iff_true]
        rw [ih]
      · rw [if_neg h1, if_neg h1]
        by_cases h2 : countChar (format_ble_mac (pyStrip item)) ':' = 5 ∧
            (format_ble_mac (pyStrip item)).length = 17
        · rw [if_pos h2, if_pos h2, ih]
          simp
        · rw [if_neg h2, if_neg h2, ih]

theorem upperStr_format_ble_mac (raw : String) :
    upperStr (format_ble_mac raw) = format_ble_mac raw := by
  unfold format_ble_mac
  by_cases h : raw = ""
  · simp only [h, if_pos rfl]
    rfl
  · rw [if_neg h]
    by_cases h2 : (raw.data.filter isHexChar).length ≠ 12
    · rw [if_pos h2]
      exact upperStr_upperStr raw
    · rw [if_neg h2]
      exact upperStr_upperStr _

/-! Sorting lemmas for `pySort`. -/

theorem mem_insertSorted {a x : String} {l : List String} :
    a ∈ insertSorted x l ↔ a = x ∨ a ∈ l := by
  induction l with
  | nil => simp [insertSorted]
  | cons y ys ih =>
      unfold insertSorted
      by_cases h : strLe x y = true
      · simp [h]
      · simp only [Bool.not_eq_true] at h
        simp only [h, Bool.false_eq_true, if_false, List.mem_cons, ih]
        tauto

theorem pairwise_insertSorted {x : String} {l : List String}
    (hl : l.Pairwise (fun a b => strLe a b = true)) :
    (insertSorted x l).Pairwise (fun a b => strLe a b = true) := by
  induction l with
  | nil => simp [insertSorted]
  | cons y ys ih =>
      rcases List.pairwise_cons.mp hl with ⟨hy, hys⟩
      unfold insertSorted
      by_cases h : strLe x y = true
      · rw [if_pos h]
        refine List.pairwise_cons.mpr ⟨?_, hl⟩
        intro b hb
        rcases List.mem_cons.mp hb with rfl | hb
        · exact h
        · exact strLe_trans h (hy b hb)
      · have hyx : strLe y x = true := by
          rcases strLe_total x y with h' | h'
          · exact absurd h' h
          · exact h'
        simp only [h, Bool.false_eq_true, if_false]
        refine List.pairwise_cons.mpr ⟨?_, ih hys⟩
        intro b hb
        rcases mem_insertSorted.mp hb with rfl | hb
        · exact hyx
        · exact hy b hb

theorem nodup_insertSorted {x : String} {l : List String}
    (hx : x ∉ l) (hl : l.Nodup) : (insertSorted x l).Nodup := by
  induction l with
  | nil => simp [insertSorted]
  | cons y ys ih =>
      rcases List.nodup_cons.mp hl with ⟨hy, hys⟩
      unfold insertSorted
      by_cases h : strLe x y = true
      · rw [if_pos h]
        exact List.nodup_cons.mpr ⟨hx, hl⟩
      · simp only [h, Bool.false_eq_true, if_false]
        refine List.nodup_cons.mpr ⟨?_, ih (fun hc => hx (List.mem_cons_of_mem y hc)) hys⟩
        intro hc
        rcases mem_insertSorted.mp hc with rfl | hc
        · exact hx (List.mem_cons_self _ _)
        · exact hy hc

theorem pySort_pairwise (l : List String) :
    (pySort l).Pairwise (fun a b => strLe a b = true) := by
  unfold pySort
  induction l with
  | nil => simp
  | cons x xs ih => exact pairwise_insertSorted ih

theorem mem_pySort {a : String} {l : List String} : a ∈ pySort l ↔ a ∈ l := by
  unfold pySort
  induction l with
  | nil => simp
  | cons x xs ih =>
      simp only [List.foldr_cons, mem_insertSorted, ih, List.mem_cons]

theorem pySort_nodup {l : List String} (hl : l.Nodup) : (pySort l).Nodup := by
  unfold pySort
  induction l with
  | nil => simp
  | cons x xs ih =>
      rcases List.nodup_cons.mp hl with ⟨hx, hxs⟩
      refine nodup_insertSorted ?_ (ih hxs)
      intro hc
      exact hx ((@mem_pySort x xs).mp hc)

/-! ## Claim predicates for C3 -/

/-- The hex digits in uppercase spelling. -/
def hexUpperChars : List Char := "0123456789ABCDEF".data

/-- The hex digits in lowercase spelling. -/
def hexLowerChars : List Char := "0123456789abcdef".data

/-- A hex digit in its uppercase spelling (`0-9A-F`). -/
def isHexUpperChar (c : Char) : Bool := hexUpperChars.contains c

/-- A hex digit in its lowercase spelling (`0-9a-f`). -/
def isHexLowerChar (c : Char) : Bool := hexLowerChars.contains c

/-- A canonical uppercase colon-delimited 6-octet MAC (the claims' notion of
a well-formed canonical MAC). -/
def isCanonicalMac (s : String) : Bool :=
  match s.data with
  | [a, b, s1, c, d, s2, e, f, s3, g, h, s4, i, j, s5, k, l] =>
      s1 = ':' ∧ s2 = ':' ∧ s3 = ':' ∧ s4 = ':' ∧ s5 = ':' ∧
        ([a, b, c, d, e, f, g, h, i, j, k, l].all isHexUpperChar)
  | _ => false

theorem tokenNorm_some {item m : String} (h : tokenNorm item = some m) :
    m.length = 17 ∧ countChar m ':' = 5 ∧ upperStr m = m := by
  unfold tokenNorm at h
  by_cases h1 : pyStrip item = ""
  · rw [if_pos h1] at h
    exact absurd h (by simp)
  · rw [if_neg h1] at h
    by_cases h2 : countChar (format_ble_mac (pyStrip item)) ':' = 5 ∧
        (format_ble_mac (pyStrip item)).length = 17
    · rw [if_pos h2] at h
      obtain rfl : format_ble_mac (pyStrip item) = m := by
        simpa using h
      exact ⟨h2.2, h2.1, upperStr_format_ble_mac _⟩
    · rw [if_neg h2] at h
      exact absurd h (by simp)

/-- C3 (counterexample): the token `"GG:GG:GG:GG:GG:GG"` is not a
well-formed MAC (no hex digits at all), yet `normalize_input_mac_list`
keeps it, because `format_ble_mac` falls back to the uppercased original,
which happens to have length 17 and five colons. The output element is not
a canonical MAC, contradicting the claim. -/
theorem c3_counterexample :
    normalize_input_mac_list (.str "GG:GG:GG:GG:GG:GG") =
      ["GG:GG:GG:GG:GG:GG"] ∧
    isCanonicalMac "GG:GG:GG:GG:GG:GG" = false := by
  constructor
  · rfl
  · rfl

/-- C3 (amended): `normalize_input_mac_list` tokenizes its input (pre-split
list, or string split at comma/semicolon/newline/space), strips each token,
normalizes it with `format_ble_mac`, and keeps exactly those tokens whose
normal form has length 17 and five colons (such an element is always equal
to its own uppercasing, but need not be a well-formed hex MAC); the result
is deduplicated and sorted. -/
theorem c3_parse_list_amended (raw : RawInput) :
    (∀ m ∈ normalize_input_mac_list raw,
        m.length = 17 ∧ countChar m ':' = 5 ∧ upperStr m = m) ∧
    (normalize_input_mac_list raw).Nodup ∧
    (normalize_input_mac_list raw).Pairwise (fun a b => strLe a b = true) ∧
    (∀ m, m ∈ normalize_input_mac_list raw ↔
        ∃ item ∈ tokensOf raw, tokenNorm item = some m) := by
  have hout :
      normalize_input_mac_list raw =
        pySort ((tokensOf raw).filterMap tokenNorm).dedup := by
    unfold normalize_input_mac_list
    dsimp only
    rw [normalize_out_eq_filterMap]
    simp
  have hmem : ∀ m, m ∈ normalize_input_mac_list raw ↔
      ∃ item ∈ tokensOf raw, tokenNorm item = some m := by
    intro m
    rw [hout, mem_pySort, List.mem_dedup, List.mem_filterMap]
  refine ⟨?_, ?_, ?_, hmem⟩
  · intro m hm
    obtain ⟨item, _, hitem⟩ := (hmem m).mp hm
    exact tokenNorm_some hitem
  · rw [hout]
    exact pySort_nodup (List.nodup_dedup _)
  · rw [hout]
    exact pySort_pairwise _

/-- Witness for C3 (amended) at a concrete mixed-separator input. -/
theorem c3_parse_list_amended_witness :
    ("AA:BB:CC:DD:EE:FF" ∈
        normalize_input_mac_list (.str "11-22-33-44-55-66 aa:bb:cc:dd:ee:ff") ∧
      ("AA:BB:CC:DD:EE:FF" : String).length = 17 ∧
      countChar "AA:BB:CC:DD:EE:FF" ':' = 5 ∧
      upperStr "AA:BB:CC:DD:EE:FF" = "AA:BB:CC:DD:EE:FF") ∧
    (normalize_input_mac_list (.str "11-22-33-44-55-66 aa:bb:cc:dd:ee:ff")).Nodup := by
  have h := c3_parse_list_amended (.str "11-22-33-44-55-66 aa:bb:cc:dd:ee:ff")
  have hm : "AA:BB:CC:DD:EE:FF" ∈
      normalize_input_mac_list (.str "11-22-33-44-55-66 aa:bb:cc:dd:ee:ff") := by
    decide
  exact ⟨⟨hm, h.1 _ hm⟩, h.2.1⟩

/-! ## Identifier recovery (C9)

`handle_device_registry_update` / `sync_existing_devices` recover the MAC
from a registry identifier value via
`value.replace("lancom_ble_", "")`, `split("_")`, a six-part length check,
and `":".join(p.upper() for p in parts)` (`__init__.py` lines 541-546). -/

/-- Model of Python `str.replace(pat, rep)` on character lists, for a
nonempty pattern (the source only uses the nonempty pattern
`"lancom_ble_"`): scan left to right, replacing each non-overlapping
occurrence. -/
def replAllAux (pat rep : List Char) : List Char → List Char
  | [] => []
  | c :: rest =>
      if pat ≠ [] ∧ pat.isPrefixOf (c :: rest) then
        rep ++ replAllAux pat rep (List.drop (pat.length - 1) rest)
      else c :: replAllAux pat rep rest
  termination_by l => l.length
  decreasing_by
  · simp only [List.length_drop, List.length_cons]
    omega
  · simp only [List.length_cons]
    omega

/-- `":".join(...)` on character-list pieces. -/
def joinColon : List (List Char) → List Char
  | [] => []
  | [g] => g
  | g :: gs => g ++ ':' :: joinColon gs

/-- The recovery of a canonical MAC from an identifier value as performed
by `handle_device_registry_update` (`__init__.py` lines 541-546): require
the `lancom_ble_` marker at the front, replace it away, split at
underscores, require six parts, uppercase and join with colons. `none`
models the `continue` paths. -/
def recoverMacFromIdent (v : String) : Option String :=
  if "lancom_ble_".data.isPrefixOf v.data then
    let parts := splitOnChar '_' (replAllAux "lancom_ble_".data [] v.data)
    if parts.length = 6 then
      some ⟨joinColon (parts.map (fun p => p.map upChar))⟩
    else none
  else none

/-- A well-formed identifier: the `lancom_ble_` marker followed by six
two-character lowercase-hex groups joined by underscores. -/
def isWellFormedIdent (v : String) : Bool :=
  (v.data.take 11 == "lancom_ble_".data) &&
  (match v.data.drop 11 with
   | [x1, x2, u1, x3, x4, u2, x5, x6, u3, x7, x8, u4, x9, x10, u5, x11, x12] =>
       (u1 == '_') && (u2 == '_') && (u3 == '_') && (u4 == '_') && (u5 == '_') &&
         ([x1, x2, x3, x4, x5, x6, x7, x8, x9, x10, x11, x12].all isHexLowerChar)
   | _ => false)

theorem replAllAux_of_head_notMem {p : Char} {pt rep : List Char}
    {l : List Char} (h : p ∉ l) : replAllAux (p :: pt) rep l = l := by
  induction l with
  | nil => simp [replAllAux]
  | cons c rest ih =>
      have hpc : p ≠ c := fun hc => h (hc ▸ List.mem_cons_self c rest)
      unfold replAllAux
      rw [if_neg]
      · rw [ih (fun hc => h (List.mem_cons_of_mem c hc))]
      · intro hcond
        have := hcond.2
        simp only [List.isPrefixOf, Bool.and_eq_true, beq_iff_eq] at this
        exact hpc this.1

theorem hexUpper_char_facts : ∀ c ∈ hexUpperChars,
    loChar c ≠ ':' ∧ loChar c ≠ '_' ∧ loChar c ≠ 'l' ∧
      upChar (loChar c) = c ∧ c ≠ ':' := by decide

theorem hexLower_char_facts : ∀ c ∈ hexLowerChars,
    loChar (upChar c) = c ∧ c ≠ ':' ∧ c ≠ '_' ∧ c ≠ 'l' ∧
      isHexUpperChar (upChar c) = true := by decide

theorem lancom_data :
    "lancom_ble_".data = ['l','a','n','c','o','m','_','b','l','e','_'] := rfl

theorem mem_of_isHexUpper {c : Char} (h : isHexUpperChar c = true) :
    c ∈ hexUpperChars := by
  simpa [isHexUpperChar] using h

theorem mem_of_isHexLower {c : Char} (h : isHexLowerChar c = true) :
    c ∈ hexLowerChars := by
  simpa [isHexLowerChar] using h

theorem loChar_colon : loChar ':' = ':' := by decide

theorem isPrefixOf_append_self (l t : List Char) :
    (l.isPrefixOf (l ++ t)) = true := by
  induction l with
  | nil => simp [List.isPrefixOf]
  | cons c cs ih => simp [List.isPrefixOf, ih]

/-- `replace("lancom_ble_", "")` on a string of the form
`"lancom_ble_" + tail` where `tail` contains no `'l'` removes exactly the
marker. -/
theorem replAll_lancom (tail : List Char) (h : 'l' ∉ tail) :
    replAllAux "lancom_ble_".data [] ("lancom_ble_".data ++ tail) = tail := by
  rw [lancom_data]
  simp only [List.cons_append, List.nil_append]
  unfold replAllAux
  rw [if_pos]
  · rw [show List.drop (['l','a','n','c','o','m','_','b','l','e','_'].length - 1)
        ('a' :: 'n' :: 'c' :: 'o' :: 'm' :: '_' :: 'b' :: 'l' :: 'e' :: '_' :: tail) =
        tail from rfl]
    simp only [List.nil_append]
    exact replAllAux_of_head_notMem h
  · refine ⟨by simp, ?_⟩
    have h2 := isPrefixOf_append_self ['l','a','n','c','o','m','_','b','l','e','_'] tail
    simp only [List.cons_append, List.nil_append] at h2
    exact h2

/-- C9: `identifier_for` and the recovery of a canonical MAC from a
well-formed identifier (strip the `lancom_ble_` marker, split into six
two-character groups, uppercase, join with colons) are mutually inverse:
every canonical uppercase colon-delimited MAC round-trips through its
identifier, and every well-formed identifier round-trips through its
recovered MAC. -/
theorem c9_identifier_roundtrip (s v : String) :
    (isCanonicalMac s = true →
      recoverMacFromIdent (identifier_for s) = some s) ∧
    (isWellFormedIdent v = true →
      ∃ m, recoverMacFromIdent v = some m ∧ isCanonicalMac m = true ∧
        identifier_for m = v) := by
  constructor
  · intro h
    obtain ⟨data⟩ := s
    rcases data with _ | ⟨x1, _ | ⟨x2, _ | ⟨c1, _ | ⟨x3, _ | ⟨x4, _ | ⟨c2, _ | ⟨x5,
      _ | ⟨x6, _ | ⟨c3, _ | ⟨x7, _ | ⟨x8, _ | ⟨c4, _ | ⟨x9, _ | ⟨x10, _ | ⟨c5,
      _ | ⟨x11, _ | ⟨x12, rest⟩⟩⟩⟩⟩⟩⟩⟩⟩⟩⟩⟩⟩⟩⟩⟩⟩ <;>
      try (simp [isCanonicalMac] at h)
    cases rest with
    | cons y ys => simp [isCanonicalMac] at h
    | nil =>
        simp only [isCanonicalMac, decide_eq_true_eq, List.all_cons,
          List.all_nil, Bool.and_eq_true, decide_eq_true_eq, and_true] at h
        obtain ⟨rfl, rfl, rfl, rfl, rfl, h1, h2, h3, h4, h5, h6, h7,
          h8, h9, h10, h11, h12⟩ := h
        obtain ⟨a1, b1, d1, e1, -⟩ := hexUpper_char_facts x1 (mem_of_isHexUpper h1)
        obtain ⟨a2, b2, d2, e2, -⟩ := hexUpper_char_facts x2 (mem_of_isHexUpper h2)
        obtain ⟨a3, b3, d3, e3, -⟩ := hexUpper_char_facts x3 (mem_of_isHexUpper h3)
        obtain ⟨a4, b4, d4, e4, -⟩ := hexUpper_char_facts x4 (mem_of_isHexUpper h4)
        obtain ⟨a5, b5, d5, e5, -⟩ := hexUpper_char_facts x5 (mem_of_isHexUpper h5)
        obtain ⟨a6, b6, d6, e6, -⟩ := hexUpper_char_facts x6 (mem_of_isHexUpper h6)
        obtain ⟨a7, b7, d7, e7, -⟩ := hexUpper_char_facts x7 (mem_of_isHexUpper h7)
        obtain ⟨a8, b8, d8, e8, -⟩ := hexUpper_char_facts x8 (mem_of_isHexUpper h8)
        obtain ⟨a9, b9, d9, e9, -⟩ := hexUpper_char_facts x9 (mem_of_isHexUpper h9)
        obtain ⟨a10, b10, d10, e10, -⟩ :=
          hexUpper_char_facts x10 (mem_of_isHexUpper h10)
        obtain ⟨a11, b11, d11, e11, -⟩ :=
          hexUpper_char_facts x11 (mem_of_isHexUpper h11)
        obtain ⟨a12, b12, d12, e12, -⟩ :=
          hexUpper_char_facts x12 (mem_of_isHexUpper h12)
        have hident : identifier_for
            ⟨[x1, x2, ':', x3, x4, ':', x5, x6, ':', x7, x8, ':', x9, x10,
              ':', x11, x12]⟩ =
            ⟨"lancom_ble_".data ++
              [loChar x1, loChar x2, '_', loChar x3, loChar x4, '_',
               loChar x5, loChar x6, '_', loChar x7, loChar x8, '_',
               loChar x9, loChar x10, '_', loChar x11, loChar x12]⟩ := by
          simp [identifier_for, lowerStr, loChar_colon,
            a1, a2, a3, a4, a5, a6, a7, a8, a9, a10, a11, a12]
        rw [hident]
        have hnotl : 'l' ∉
            [loChar x1, loChar x2, '_', loChar x3, loChar x4, '_',
             loChar x5, loChar x6, '_', loChar x7, loChar x8, '_',
             loChar x9, loChar x10, '_', loChar x11, loChar x12] := by
          simp only [List.mem_cons, List.not_mem_nil, or_false]
          push_neg
          exact ⟨fun hc => d1 hc.symm, fun hc => d2 hc.symm, by decide,
            fun hc => d3 hc.symm, fun hc => d4 hc.symm, by decide,
            fun hc => d5 hc.symm, fun hc => d6 hc.symm, by decide,
            fun hc => d7 hc.symm, fun hc => d8 hc.symm, by decide,
            fun hc => d9 hc.symm, fun hc => d10 hc.symm, by decide,
            fun hc => d11 hc.symm, fun hc => d12 hc.symm⟩
        unfold recoverMacFromIdent
        rw [if_pos (isPrefixOf_append_self _ _), replAll_lancom _ hnotl]
        have hsplit : splitOnChar '_'
            [loChar x1, loChar x2, '_', loChar x3, loChar x4, '_',
             loChar x5, loChar x6, '_', loChar x7, loChar x8, '_',
             loChar x9, loChar x10, '_', loChar x11, loChar x12] =
            [[loChar x1, loChar x2], [loChar x3, loChar x4],
             [loChar x5, loChar x6], [loChar x7, loChar x8],
             [loChar x9, loChar x10], [loChar x11, loChar x12]] := by
          simp [splitOnChar, b1, b2, b3, b4, b5, b6, b7, b8, b9, b10, b11, b12]
        rw [hsplit]
        simp only [List.length_cons, List.length_nil, if_pos]
        simp only [List.map_cons, List.map_nil, joinColon,
          e1, e2, e3, e4, e5, e6, e7, e8, e9, e10, e11, e12,
          List.cons_append, List.nil_append]
  · intro h
    obtain ⟨vdata⟩ := v
    unfold isWellFormedIdent at h
    rw [Bool.and_eq_true] at h
    obtain ⟨htake, hrest⟩ := h
    have htake' : vdata.take 11 = "lancom_ble_".data := by
      simpa using htake
    rcases hdrop : vdata.drop 11 with _ | ⟨x1, _ | ⟨x2, _ | ⟨u1, _ | ⟨x3,
      _ | ⟨x4, _ | ⟨u2, _ | ⟨x5, _ | ⟨x6, _ | ⟨u3, _ | ⟨x7, _ | ⟨x8,
      _ | ⟨u4, _ | ⟨x9, _ | ⟨x10, _ | ⟨u5, _ | ⟨x11, _ | ⟨x12,
      rest⟩⟩⟩⟩⟩⟩⟩⟩⟩⟩⟩⟩⟩⟩⟩⟩⟩ <;>
      (rw [hdrop] at hrest) <;> try (simp at hrest)
    cases rest with
    | cons y ys => simp at hrest
    | nil =>
        simp only [Bool.and_eq_true, beq_iff_eq, List.all_cons, List.all_nil,
          Bool.and_eq_true, and_true] at hrest
        obtain ⟨⟨⟨⟨⟨rfl, rfl⟩, rfl⟩, rfl⟩, rfl⟩, h1, h2, h3, h4, h5, h6,
          h7, h8, h9, h10, h11, h12⟩ := hrest
        obtain ⟨a1, b1, d1, e1, g1⟩ := hexLower_char_facts x1 (mem_of_isHexLower h1)
        obtain ⟨a2, b2, d2, e2, g2⟩ := hexLower_char_facts x2 (mem_of_isHexLower h2)
        obtain ⟨a3, b3, d3, e3, g3⟩ := hexLower_char_facts x3 (mem_of_isHexLower h3)
        obtain ⟨a4, b4, d4, e4, g4⟩ := hexLower_char_facts x4 (mem_of_isHexLower h4)
        obtain ⟨a5, b5, d5, e5, g5⟩ := hexLower_char_facts x5 (mem_of_isHexLower h5)
        obtain ⟨a6, b6, d6, e6, g6⟩ := hexLower_char_facts x6 (mem_of_isHexLower h6)
        obtain ⟨a7, b7, d7, e7, g7⟩ := hexLower_char_facts x7 (mem_of_isHexLower h7)
        obtain ⟨a8, b8, d8, e8, g8⟩ := hexLower_char_facts x8 (mem_of_isHexLower h8)
        obtain ⟨a9, b9, d9, e9, g9⟩ := hexLower_char_facts x9 (mem_of_isHexLower h9)
        obtain ⟨a10, b10, d10, e10, g10⟩ :=
          hexLower_char_facts x10 (mem_of_isHexLower h10)
        obtain ⟨a11, b11, d11, e11, g11⟩ :=
          hexLower_char_facts x11 (mem_of_isHexLower h11)
        obtain ⟨a12, b12, d12, e12, g12⟩ :=
          hexLower_char_facts x12 (mem_of_isHexLower h12)
        have hv : vdata = "lancom_ble_".data ++
            [x1, x2, '_', x3, x4, '_', x5, x6, '_', x7, x8, '_', x9, x10,
             '_', x11, x12] := by
          have hsplit := (List.take_append_drop 11 vdata).symm
          rw [htake', hdrop] at hsplit
          exact hsplit
        rw [show (⟨vdata⟩ : String) = ⟨"lancom_ble_".data ++
            [x1, x2, '_', x3, x4, '_', x5, x6, '_', x7, x8, '_', x9, x10,
             '_', x11, x12]⟩ from congrArg String.mk hv]
        refine ⟨⟨[upChar x1, upChar x2, ':', upChar x3, upChar x4, ':',
          upChar x5, upChar x6, ':', upChar x7, upChar x8, ':', upChar x9,
          upChar x10, ':', upChar x11, upChar x12]⟩, ?_, ?_, ?_⟩
        · have hnotl : 'l' ∉
              [x1, x2, '_', x3, x4, '_', x5, x6, '_', x7, x8, '_', x9, x10,
               '_', x11, x12] := by
            simp only [List.mem_cons, List.not_mem_nil, or_false]
            push_neg
            exact ⟨fun hc => e1 hc.symm, fun hc => e2 hc.symm, by decide,
              fun hc => e3 hc.symm, fun hc => e4 hc.symm, by decide,
              fun hc => e5 hc.symm, fun hc => e6 hc.symm, by decide,
              fun hc => e7 hc.symm, fun hc => e8 hc.symm, by decide,
              fun hc => e9 hc.symm, fun hc => e10 hc.symm, by decide,
              fun hc => e11 hc.symm, fun hc => e12 hc.symm⟩
          unfold recoverMacFromIdent
          rw [if_pos (isPrefixOf_append_self _ _), replAll_lancom _ hnotl]
          have hsplit2 : splitOnChar '_'
              [x1, x2, '_', x3, x4, '_', x5, x6, '_', x7, x8, '_', x9, x10,
               '_', x11, x12] =
              [[x1, x2], [x3, x4], [x5, x6], [x7, x8], [x9, x10],
               [x11, x12]] := by
            simp [splitOnChar, d1, d2, d3, d4, d5, d6, d7, d8, d9, d10,
              d11, d12]
          rw [hsplit2]
          simp only [List.length_cons, List.length_nil, if_pos]
          simp only [List.map_cons, List.map_nil, joinColon,
            List.cons_append, List.nil_append]
        · simp [isCanonicalMac, g1, g2, g3, g4, g5, g6, g7, g8, g9, g10,
            g11, g12]
        · simp only [identifier_for, lowerStr, List.map_cons, List.map_nil,
            loChar_colon, a1, a2, a3, a4, a5, a6, a7, a8, a9, a10, a11, a12]
          congr 1
          simp [b1, b2, b3, b4, b5, b6, b7, b8, b9, b10, b11, b12]

/-- Witness for C9 at the concrete MAC `AA:BB:CC:DD:EE:FF` and identifier
`lancom_ble_aa_bb_cc_dd_ee_ff`. -/
theorem c9_identifier_roundtrip_witness :
    recoverMacFromIdent (identifier_for "AA:BB:CC:DD:EE:FF") =
      some "AA:BB:CC:DD:EE:FF" ∧
    ∃ m, recoverMacFromIdent "lancom_ble_aa_bb_cc_dd_ee_ff" = some m ∧
      isCanonicalMac m = true ∧
      identifier_for m = "lancom_ble_aa_bb_cc_dd_ee_ff" := by
  have h := c9_identifier_roundtrip "AA:BB:CC:DD:EE:FF"
    "lancom_ble_aa_bb_cc_dd_ee_ff"
  exact ⟨h.1 (by decide), h.2 (by decide)⟩

/-! ## `_safe_int` (`__init__.py` lines 137-156)

JSON field values reaching `_safe_int` are modelled by `JsonVal`. Python
`bool` is a subtype of `int`, so a boolean passes the `isinstance(value,
int)` check (`True` behaves as `1`). Python `float` is modelled as `ℚ`
(so the `int(round(...))` conversion never raises; `float("inf")` /
`float("nan")`, which are not representable in `ℚ` and whose rounding
raises and falls back to the default in the source, are treated as parse
failures here, giving the same result). -/

inductive JsonVal where
  | null
  | bool (b : Bool)
  | int (n : Int)
  | float (q : ℚ)
  | str (s : String)
  | other
deriving DecidableEq

/-- Python 3 `round` on a value half-way between two integers rounds to the
even neighbour; otherwise to the nearest integer. -/
def pyRound (q : ℚ) : Int :=
  let f := ⌊q⌋
  let r := q - f
  if r < 1/2 then f
  else if 1/2 < r then f + 1
  else if f % 2 = 0 then f else f + 1

/-- A decimal digit's value. -/
def decDigit? (c : Char) : Option Nat :=
  if 48 ≤ c.toNat ∧ c.toNat ≤ 57 then some (c.toNat - 48) else none

/-- Continuation of a digit group: digits with single underscores allowed
between digits (Python numeric-literal grammar). Accumulates the value and
the digit count. -/
def digitsValCnt (acc cnt : Nat) : List Char → Option (Nat × Nat)
  | [] => some (acc, cnt)
  | c :: rest =>
      match decDigit? c with
      | some d => digitsValCnt (acc * 10 + d) (cnt + 1) rest
      | none =>
          if c = '_' then
            match rest with
            | r :: rest' =>
                match decDigit? r with
                | some d => digitsValCnt (acc * 10 + d) (cnt + 1) rest'
                | none => none
            | [] => none
          else none

/-- A nonempty digit group (with optional internal underscores): value and
digit count. -/
def parseDigits : List Char → Option (Nat × Nat)
  | [] => none
  | c :: rest =>
      match decDigit? c with
      | some d => digitsValCnt d 1 rest
      | none => none

/-- Model of Python `int(s)` on a stripped string: optional sign and a
digit group. -/
def parseIntStr (s : String) : Option Int :=
  match s.data with
  | '+' :: rest => (parseDigits rest).map (fun p => (p.1 : Int))
  | '-' :: rest => (parseDigits rest).map (fun p => -(p.1 : Int))
  | l => (parseDigits l).map (fun p => (p.1 : Int))

/-- Split a character list at the first character satisfying `p`; the second
component is `none` when no such character occurs. -/
def splitFirst (p : Char → Bool) : List Char → List Char × Option (List Char)
  | [] => ([], none)
  | c :: rest =>
      if p c then ([], some rest)
      else
        let r := splitFirst p rest
        (c :: r.1, r.2)

/-- The mantissa of a Python float literal: `digits`, `digits.`,
`digits.digits` or `.digits`. -/
def parseMantissa (mant : List Char) : Option ℚ :=
  let r := splitFirst (fun c => c = '.') mant
  match r.2 with
  | none =>
      match parseDigits r.1 with
      | some p => some ((p.1 : ℚ))
      | none => none
  | some fp =>
      match r.1, fp with
      | [], [] => none
      | [], _ =>
          match parseDigits fp with
          | some p => some ((p.1 : ℚ) / 10 ^ p.2)
          | none => none
      | _ :: _, [] =>
          match parseDigits r.1 with
          | some p => some ((p.1 : ℚ))
          | none => none
      | _ :: _, _ :: _ =>
          match parseDigits r.1, parseDigits fp with
          | some pi, some pf => some ((pi.1 : ℚ) + (pf.1 : ℚ) / 10 ^ pf.2)
          | _, _ => none

/-- The exponent of a Python float literal: optional sign and a digit
group. -/
def parseExp : List Char → Option Int
  | '+' :: rest => (parseDigits rest).map (fun p => (p.1 : Int))
  | '-' :: rest => (parseDigits rest).map (fun p => -(p.1 : Int))
  | l => (parseDigits l).map (fun p => (p.1 : Int))

/-- Model of Python `float(s)` on a stripped string (finite decimal
literals; `inf` / `nan` spellings are treated as failures, see above). -/
def parseFloatStr (s : String) : Option ℚ :=
  let body := fun (l : List Char) =>
    let r := splitFirst (fun c => c = 'e' ∨ c = 'E') l
    match parseMantissa r.1, r.2 with
    | some m, none => some m
    | some m, some e =>
        match parseExp e with
        | some ev => some (m * (10 : ℚ) ^ ev)
        | none => none
    | none, _ => none
  match s.data with
  | '+' :: rest => body rest
  | '-' :: rest => (body rest).map Neg.neg
  | l => body l

/-- `_safe_int` (`__init__.py` lines 137-156): robust int conversion with a
fallback default. -/
def safe_int (value : JsonVal) (default : Option Int) : Option Int :=
  match value with
  | .null => default
  | .bool b => some (if b then 1 else 0)
  | .int n => some n
  | .float q => some (pyRound q)
  | .str s =>
      match parseIntStr (pyStrip s) with
      | some n => some n
      | none =>
          match parseFloatStr (pyStrip s) with
          | some q => some (pyRound q)
          | none => default
  | .other => default

/-- The rssi normalization in `LancomBLERemoteScanner.inject_ble`
(`__init__.py` lines 836-838): `_safe_int(m.get("rssi"), default=-70)`
followed by the `-127 → -70` remap. With a `some` default, `_safe_int`
never returns `none`; the `getD` only realizes that. -/
def resolveRssi (v : JsonVal) : Int :=
  let r := (safe_int v (some (-70))).getD (-70)
  if r = -127 then -70 else r

/-- A malformed rssi field in the sense of C7: not an integer (or boolean),
not a float, and not a string parseable as an int or float literal. -/
def malformedRssi : JsonVal → Bool
  | .null => true
  | .other => true
  | .str s =>
      (parseIntStr (pyStrip s)).isNone && (parseFloatStr (pyStrip s)).isNone
  | .bool _ => false
  | .int _ => false
  | .float _ => false

/-! ## `MAC_ANY_PATTERN` and user-name cleanup (`__init__.py` lines 82-84,
159-183) -/

/-- A separator accepted by the first regex alternative (`[:\-]`). -/
def isSepChar (c : Char) : Bool := c = ':' ∨ c = '-'

/-- First regex alternative `([0-9A-Fa-f]{2}[:\-]){5}[0-9A-Fa-f]{2}`:
a 17-character colon/hyphen-separated MAC at the head of the list. -/
def matchAlt1 : List Char → Bool
  | a :: b :: s1 :: c :: d :: s2 :: e :: f :: s3 :: g :: h :: s4 :: i :: j ::
      s5 :: k :: l :: _ =>
      ([a, b, c, d, e, f, g, h, i, j, k, l].all isHexChar) &&
        ([s1, s2, s3, s4, s5].all isSepChar)
  | _ => false

/-- Second regex alternative `[0-9A-Fa-f]{12}`: 12 hex characters at the
head of the list. -/
def matchAlt2 (l : List Char) : Bool :=
  (l.take 12).length = 12 && (l.take 12).all isHexChar

/-- A match of `MAC_ANY_PATTERN` at the head of the list, returning the
match length. The alternation prefers the first (17-character) alternative,
as Python `re` does; both alternatives are fixed-length, so there is no
backtracking. -/
def matchMacAt (l : List Char) : Option Nat :=
  if matchAlt1 l then some 17 else if matchAlt2 l then some 12 else none

theorem matchMacAt_pos {l : List Char} {n : Nat} (h : matchMacAt l = some n) :
    0 < n := by
  unfold matchMacAt at h
  by_cases h1 : matchAlt1 l = true
  · rw [if_pos h1] at h
    obtain rfl : (17 : Nat) = n := by simpa using h
    omega
  · rw [if_neg h1] at h
    by_cases h2 : matchAlt2 l = true
    · rw [if_pos h2] at h
      obtain rfl : (12 : Nat) = n := by simpa using h
      omega
    · rw [if_neg h2] at h
      exact absurd h (by simp)

/-- Fuel-indexed worker for `subMacs`; the fuel is structural so the
function evaluates definitionally. Every step consumes at least one
character (a match consumes 12 or 17), so fuel `l.length` never runs out
and the zero-fuel fallback is unreachable. -/
def subMacsF : Nat → List Char → List Char
  | _, [] => []
  | 0, l => l
  | fuel + 1, c :: rest =>
      match matchMacAt (c :: rest) with
      | some n => subMacsF fuel (List.drop n (c :: rest))
      | none => c :: subMacsF fuel rest

/-- `MAC_ANY_PATTERN.sub("", name)`: remove every non-overlapping match,
scanning left to right and continuing after each match. -/
def subMacs (l : List Char) : List Char := subMacsF l.length l

/-- Fuel-indexed worker for `collapseWs`; every step consumes at least one
character, so fuel `l.length` never runs out and the zero-fuel fallback is
unreachable. -/
def collapseWsF : Nat → List Char → List Char
  | _, [] => []
  | 0, l => l
  | fuel + 1, c :: rest =>
      if isWsChar c && (match rest with | r :: _ => isWsChar r | [] => false) then
        ' ' :: collapseWsF fuel (rest.dropWhile isWsChar)
      else c :: collapseWsF fuel rest

/-- `re.sub(r"\s{2,}", " ", name)`: replace every run of two or more
whitespace characters by a single space (a lone whitespace character is
kept as it is). -/
def collapseWs (l : List Char) : List Char := collapseWsF l.length l

/-- `_strip_paren_mac` (`__init__.py` lines 159-164): remove a trailing
`(MAC)` and strip the remainder. -/
def strip_paren_mac (name macU : String) : String :=
  let suffix := "(" ++ macU ++ ")"
  if suffix.data.isSuffixOf name.data then
    pyStrip ⟨name.data.take (name.data.length - suffix.data.length)⟩
  else name

/-- `_cleanup_user_name` (`__init__.py` lines 167-183): strip a trailing
`(MAC)`, remove MAC-shaped substrings, strip, collapse whitespace runs, and
fall back to `"Lancom AP"` when nothing remains. -/
def cleanup_user_name (name macU : String) : String :=
  let n1 := strip_paren_mac name macU
  let n2 := pyStrip ⟨subMacs n1.data⟩
  let n3 : String := ⟨collapseWs n2.data⟩
  if n3 = "" then "Lancom AP" else n3

/-! ## Device registry model

The Home Assistant device registry is an external collaborator of this
integration (spec §6: keyed by `(domain, identifier)`, supporting
create/get/update/remove and connection-key dedup). It is modelled as a
list of entries in iteration order; the set-valued `identifiers` and
`connections` fields are modelled as duplicate-free lists in iteration
order. -/

structure DeviceEntry where
  id : Nat
  identifiers : List (String × String)
  connections : List (String × String)
  name : Option String
  name_by_user : Option String
  config_entries : List String
  manufacturer : Option String
  model : Option String
  sw_version : Option String
deriving DecidableEq, Inhabited

/-- Truthiness of an optional string (`if not x` in Python: `None` and `""`
are falsy). -/
def truthyStr : Option String → Bool
  | none => false
  | some s => s ≠ ""

/-- Host `async_get_device(identifiers={(DOMAIN, ident)})`: the first entry
whose identifier set contains the pair. -/
def findByIdent (reg : List DeviceEntry) (ident : String) : Option DeviceEntry :=
  reg.find? (fun d => d.identifiers.contains (DOMAIN, ident))

/-- Host `async_update_device(id, ...)`: apply a field update to the entry
with the given id. -/
def updateEntry (reg : List DeviceEntry) (did : Nat)
    (f : DeviceEntry → DeviceEntry) : List DeviceEntry :=
  reg.map (fun d => if d.id = did then f d else d)

def startsWithStr (pre s : String) : Bool := pre.data.isPrefixOf s.data

/-- `ensure_device_registry_default_name` (`__init__.py` lines 206-230):
set the default `"Lancom AP <MAC>"` persistent name on an existing entry
that has no user name and a different current name. -/
def ensure_device_registry_default_name (reg : List DeviceEntry)
    (macU : String) : List DeviceEntry :=
  match findByIdent reg (identifier_for macU) with
  | none => reg
  | some device =>
      if truthyStr device.name_by_user then reg
      else
        let desired := "Lancom AP " ++ macU
        let current := device.name.getD ""
        if current ≠ desired then
          updateEntry reg device.id (fun d => { d with name := some desired })
        else reg

/-- `get_base_device_name` (`__init__.py` lines 186-203): the cleaned user
name when one is set, else the generic `"Lancom AP"`. -/
def get_base_device_name (reg : List DeviceEntry) (macU : String) : String :=
  match findByIdent reg (identifier_for macU) with
  | none => "Lancom AP"
  | some device =>
      if truthyStr device.name_by_user then
        cleanup_user_name (device.name_by_user.getD "") macU
      else "Lancom AP"

/-- `maybe_align_device_name_with_user` (`__init__.py` lines 233-265):
align the persistent name with the cleaned user name when the current name
is still generic-looking, returning whether an update happened. -/
def maybe_align_device_name_with_user (reg : List DeviceEntry)
    (macU : String) : List DeviceEntry × Bool :=
  match findByIdent reg (identifier_for macU) with
  | none => (reg, false)
  | some device =>
      if truthyStr device.name_by_user then
        let user := device.name_by_user.getD ""
        let cleaned := cleanup_user_name user macU
        let current := device.name.getD ""
        let isDefaultLike :=
          current = "Lancom AP " ++ macU ∨ startsWithStr "Lancom AP" current
        if isDefaultLike ∧ current ≠ cleaned then
          (updateEntry reg device.id (fun d => { d with name := some cleaned }),
            true)
        else (reg, false)
      else (reg, false)

/-! ## Scanner model (`LancomBLERemoteScanner`)

Monotonic time and the local calendar date are inputs of every operation
that reads a clock (`Env`). The host scheduler's outstanding
`async_call_later` callbacks for this scanner are modelled by
`armed_timers` (timer ids), alongside the scanner's own
`_delayed_task_cancel` handle. -/

structure Env where
  now : ℚ
  today : String

structure Scanner where
  sid : Nat
  mac_upper : String
  discovered : List (String × String × Int)
  lancom_timestamps : List (String × ℚ)
  last_detection_monotonic : ℚ
  self_injected : Bool
  delayed_task_cancel : Option Nat
  armed_timers : List Nat
  next_timer_id : Nat
  friendly_base_name : String
  packet_times : List ℚ
  packets_today : Nat
  today_date : String

/-- Association-list update: replace the value at the first matching key,
else append (Python `dict` assignment). -/
def updateAssoc {α : Type} : List (String × α) → String → α → List (String × α)
  | [], k, v => [(k, v)]
  | (k', v') :: rest, k, v =>
      if k' = k then (k, v) :: rest else (k', v') :: updateAssoc rest k v

def lookupAssoc {α : Type} (l : List (String × α)) (k : String) : Option α :=
  (l.find? (fun p => p.1 = k)).map (fun p => p.2)

/-- `LancomBLERemoteScanner.__init__` (`__init__.py` lines 623-650). -/
def freshScanner (macU : String) (sid : Nat) (today : String) : Scanner :=
  { sid := sid, mac_upper := macU, discovered := [], lancom_timestamps := [],
    last_detection_monotonic := 0, self_injected := false,
    delayed_task_cancel := none, armed_timers := [], next_timer_id := 0,
    friendly_base_name := "Lancom AP", packet_times := [], packets_today := 0,
    today_date := today }

/-- `_set_stamp` + `_touch_detection` (`__init__.py` lines 683-688). -/
def Scanner.setStamp (sc : Scanner) (mac : String) (now : ℚ) : Scanner :=
  { sc with lancom_timestamps := updateAssoc sc.lancom_timestamps mac now,
            last_detection_monotonic := now }

/-- `_inject` (`__init__.py` lines 721-762): stamp, store the discovered
pair, and hand the advertisement to the host (an external call with no
further state effect here; its failure is caught in the source). -/
def Scanner.injectAdv (sc : Scanner) (mac name : String) (rssi : Int)
    (now : ℚ) : Scanner :=
  let sc1 := sc.setStamp mac now
  { sc1 with discovered := updateAssoc sc1.discovered mac (name, rssi) }

/-- `_roll_today_if_needed` (`__init__.py` lines 690-703). -/
def Scanner.rollTodayIfNeeded (sc : Scanner) (today : String) : Scanner :=
  if today ≠ sc.today_date then
    { sc with today_date := today, packets_today := 0 }
  else sc

/-- `_record_packet` (`__init__.py` lines 705-719): roll the day if needed,
append the current monotonic time, count, then prune deque entries older
than 24 hours from the front. -/
def Scanner.recordPacket (sc : Scanner) (e : Env) : Scanner :=
  let sc1 := sc.rollTodayIfNeeded e.today
  let times := sc1.packet_times ++ [e.now]
  { sc1 with
    packet_times := times.dropWhile (fun t => t < e.now - 24 * 3600),
    packets_today := sc1.packets_today + 1 }

/-- `_schedule_delayed_self_advert` (`__init__.py` lines 799-825): cancel
any pending timer, then arm a fresh one and retain its handle. -/
def Scanner.scheduleDelayedSelfAdvert (sc : Scanner) : Scanner :=
  let sc1 :=
    match sc.delayed_task_cancel with
    | some i => { sc with armed_timers := sc.armed_timers.erase i,
                          delayed_task_cancel := none }
    | none => sc
  { sc1 with armed_timers := sc1.armed_timers ++ [sc1.next_timer_id],
             delayed_task_cancel := some sc1.next_timer_id,
             next_timer_id := sc1.next_timer_id + 1 }

/-- `inject_self_advert` (`__init__.py` lines 769-782) without the registry
side effects, which the manager-level wrappers perform; `base` is the value
`_compute_base_name` reads from the registry. -/
def Scanner.injectSelfAdvertCore (sc : Scanner) (e : Env) (base : String) :
    Scanner :=
  let sc1 := { sc with friendly_base_name := base }
  let sc2 := sc1.injectAdv sc1.mac_upper base (-55) e.now
  let sc3 := { sc2 with self_injected := true }
  sc3.scheduleDelayedSelfAdvert

/-- `reinject_name` (`__init__.py` lines 784-797). -/
def Scanner.reinjectNameCore (sc : Scanner) (e : Env) (base : String) :
    Scanner :=
  let sc1 := { sc with friendly_base_name := base }
  let sc2 := sc1.injectAdv sc1.mac_upper base (-54) e.now
  sc2.scheduleDelayedSelfAdvert

/-- The `_delayed` callback of `_schedule_delayed_self_advert` firing: only
possible while its timer is armed; clears the handle, recomputes the base
name, and injects a refresh advertisement (no rescheduling). -/
def Scanner.fireDelayed (sc : Scanner) (e : Env) (base : String) : Scanner :=
  match sc.armed_timers with
  | [] => sc
  | _ :: rest =>
      let sc1 := { sc with armed_timers := rest, delayed_task_cancel := none }
      let sc2 := { sc1 with friendly_base_name := base }
      sc2.injectAdv sc2.mac_upper base (-58) e.now

/-- One record of the webhook `measurements` list. -/
structure Measurement where
  deviceAddress : Option String
  rssi : JsonVal
  name : Option String
  advertisingData : Option String

/-- The body of the `for m in measurements` loop in
`LancomBLERemoteScanner.inject_ble` (`__init__.py` lines 831-854): skip
records without a device address; otherwise normalize, count the packet,
and inject. The `advertisingData` hex check only logs and has no state
effect. -/
def Scanner.processMeasurement (sc : Scanner) (e : Env) (m : Measurement) :
    Scanner :=
  match m.deviceAddress with
  | none => sc
  | some raw =>
      if raw = "" then sc
      else
        let devMac := format_ble_mac raw
        let rssiVal := resolveRssi m.rssi
        let name :=
          match m.name with
          | some n => if n = "" then devMac else n
          | none => devMac
        let sc1 := sc.recordPacket e
        sc1.injectAdv devMac name rssiVal e.now

/-- `LancomBLERemoteScanner.inject_ble` (`__init__.py` lines 827-854); each
measurement is paired with the clock readings made while processing it. -/
def Scanner.injectBle (sc : Scanner) (ms : List (Env × Measurement)) :
    Scanner :=
  ms.foldl (fun s em => s.processMeasurement em.1 em.2) sc

/-! ## Scanner manager (`LancomBLEScannerManager`) -/

structure ManagerState where
  scanners : List (String × Scanner)
  registry : List DeviceEntry
  next_scanner_id : Nat
  next_device_id : Nat
  entry_id : String

/-- The entry `async_get_or_create` creates for a fresh MAC
(`__init__.py` lines 388-396): default name, fixed metadata, single `mac`
connection key. -/
def newDeviceEntry (st : ManagerState) (macU : String) : DeviceEntry :=
  { id := st.next_device_id,
    identifiers := [(DOMAIN, identifier_for macU)],
    connections := mac_connection_only macU,
    name := some ("Lancom AP " ++ macU),
    name_by_user := none,
    config_entries := [st.entry_id],
    manufacturer := some "LANCOM Systems",
    model := some "Access Point (BLE Scanner)",
    sw_version := some "1.0" }

/-- `_register_or_update_device` (`__init__.py` lines 364-397). On the
create path the host `async_get_or_create` is modelled per the collaborator
contract (spec §6): it first matches by shared identifier or connection
key and merges, else creates a fresh entry. -/
def register_or_update_device (st : ManagerState) (macU : String) :
    ManagerState :=
  let reg := st.registry
  let ident := identifier_for macU
  let desired := mac_connection_only macU
  match findByIdent reg ident with
  | some existing =>
      let reg1 :=
        if ¬ existing.config_entries.contains st.entry_id then
          updateEntry reg existing.id
            (fun d => { d with config_entries := d.config_entries ++ [st.entry_id] })
        else reg
      let reg2 :=
        if existing.connections ≠ desired then
          updateEntry reg1 existing.id (fun d => { d with connections := desired })
        else reg1
      { st with registry := reg2 }
  | none =>
      match reg.find? (fun d => d.identifiers.contains (DOMAIN, ident) ∨
          d.connections.any (fun c => desired.contains c)) with
      | some d =>
          { st with registry := updateEntry reg d.id (fun d0 =>
              { d0 with
                identifiers :=
                  if d0.identifiers.contains (DOMAIN, ident) then d0.identifiers
                  else d0.identifiers ++ [(DOMAIN, ident)],
                config_entries :=
                  if d0.config_entries.contains st.entry_id then d0.config_entries
                  else d0.config_entries ++ [st.entry_id] }) }
      | none =>
          { st with
            registry := reg ++ [newDeviceEntry st macU],
            next_device_id := st.next_device_id + 1 }

/-- `get_or_create_scanner` (`__init__.py` lines 286-315): canonicalize,
reuse an existing scanner (optionally re-triggering a self-advertisement),
or create the registry entry, the scanner, and its host registration. The
host `async_register_scanner` call and the listener callbacks are external
and have no state effect here. -/
def get_or_create_scanner (st : ManagerState) (e : Env) (apMacRaw : String)
    (injectSelf : Bool) : ManagerState × Scanner :=
  let macU := format_ble_mac apMacRaw
  match lookupAssoc st.scanners macU with
  | some sc =>
      if injectSelf then
        let base := get_base_device_name st.registry macU
        let reg1 := ensure_device_registry_default_name st.registry macU
        let sc' := sc.injectSelfAdvertCore e base
        ({ st with registry := reg1,
                   scanners := updateAssoc st.scanners macU sc' }, sc')
      else (st, sc)
  | none =>
      let st1 := register_or_update_device st macU
      let reg1 := ensure_device_registry_default_name st1.registry macU
      let sc := freshScanner macU st1.next_scanner_id e.today
      let st2 := { st1 with
        registry := reg1,
        scanners := st1.scanners ++ [(macU, sc)],
        next_scanner_id := st1.next_scanner_id + 1 }
      if injectSelf then
        let base := get_base_device_name st2.registry macU
        let reg2 := ensure_device_registry_default_name st2.registry macU
        let sc' := sc.injectSelfAdvertCore e base
        ({ st2 with registry := reg2,
                    scanners := updateAssoc st2.scanners macU sc' }, sc')
      else (st2, sc)

/-- A webhook payload as seen by `LancomBLEScannerManager.inject_ble`:
`deviceMac` is `payload.get("deviceMac")` (`none` when the field is
missing) and each measurement is paired with the clock readings made while
processing it. -/
structure WebhookPayload where
  deviceMac : Option String
  measurements : List (Env × Measurement)

/-- `LancomBLEScannerManager.inject_ble` (`__init__.py` lines 317-325):
drop payloads without a truthy `deviceMac`, else resolve/create the scanner
(with self-advertisement) and forward the measurements. -/
def manager_inject_ble (st : ManagerState) (e : Env) (p : WebhookPayload) :
    ManagerState :=
  match p.deviceMac with
  | none => st
  | some mac =>
      if mac = "" then st
      else
        let r := get_or_create_scanner st e mac true
        let macU := format_ble_mac mac
        let sc' := (r.2).injectBle p.measurements
        { r.1 with scanners := updateAssoc r.1.scanners macU sc' }

/-! ## `consolidate_devices` (`__init__.py` lines 426-479) -/

/-- Whether an entry is owned by this integration (has an identifier with
our domain). -/
def ownedByDomain (d : DeviceEntry) : Bool :=
  d.identifiers.any (fun i => i.1 = DOMAIN)

/-- The `mac` connections of an entry, in iteration order. -/
def macConns (d : DeviceEntry) : List (String × String) :=
  d.connections.filter (fun c => c.1 = "mac")

/-- The key an entry is grouped under: the uppercased value of its first
`mac` connection, for entries owned by this integration that have one. -/
def groupKey (d : DeviceEntry) : Option String :=
  if ownedByDomain d then
    (macConns d).head?.map (fun c => upperStr c.2)
  else none

/-- Duplicate removal keeping the first occurrence of each element
(`List.dedup` keeps the last, so it is applied to the reversed list). -/
def firstOccurrences (l : List String) : List String := l.reverse.dedup.reverse

/-- The keys of `grouped`, in order of first appearance (Python dict
insertion order as produced by `setdefault`). -/
def groupKeys (reg : List DeviceEntry) : List String :=
  firstOccurrences (reg.filterMap groupKey)

/-- The entries grouped under key `k`, in iteration order. -/
def keyFilter (reg : List DeviceEntry) (k : String) : List DeviceEntry :=
  reg.filter (fun d => groupKey d = some k)

/-- The per-key entry lists: `grouped.setdefault(mac, []).append(device)`
produces, for each key, exactly the entries with that key, in iteration
order, keyed in order of first appearance. -/
def groupsOf (reg : List DeviceEntry) : List (String × List DeviceEntry) :=
  (groupKeys reg).map (fun k => (k, keyFilter reg k))

/-- The primary of a duplicate group: the first entry whose identifier set
contains the canonical identifier for the key, else the first entry. -/
def pickPrimary (k : String) (ds : List DeviceEntry) : DeviceEntry :=
  (ds.find? (fun d => d.identifiers.contains (DOMAIN, identifier_for k))).getD
    ds.headI

/-- The connection set `consolidate_devices` forces onto a group's
survivor. -/
def desiredConns (k : String) : List (String × String) :=
  mac_connection_only k

/-- The groups `consolidate_devices` acts on: those with at least two
entries. -/
def dupGroups (reg : List DeviceEntry) : List (String × List DeviceEntry) :=
  (groupsOf reg).filter (fun g => 2 ≤ g.2.length)

/-- The ids of the entries `consolidate_devices` removes: in every
duplicate group, everything but the primary. -/
def removedIdsOf (reg : List DeviceEntry) : List Nat :=
  (dupGroups reg).flatMap
    (fun g => ((g.2).filter
      (fun d => d.id ≠ (pickPrimary g.1 g.2).id)).map (fun d => d.id))

/-- The connection overwrites `consolidate_devices` performs: in every
duplicate group whose primary does not already carry the canonical
singleton, force it. -/
def updatesOf (reg : List DeviceEntry) : List (Nat × List (String × String)) :=
  (dupGroups reg).filterMap
    (fun g =>
      let p := pickPrimary g.1 g.2
      if p.connections = desiredConns g.1 then none
      else some (p.id, desiredConns g.1))

/-- The effect of the scheduled connection overwrites on one entry. -/
def applyUpd (reg : List DeviceEntry) (d : DeviceEntry) : DeviceEntry :=
  match (updatesOf reg).lookup d.id with
  | some cs => { d with connections := cs }
  | none => d

/-- `consolidate_devices` (`__init__.py` lines 426-479): group owned
entries by MAC connection; in every group with at least two entries keep
the primary (updating its connection set to the canonical singleton when it
differs) and remove the others, returning the new registry and the removal
count. All reads happen on the pre-state and the touched entry sets are
disjoint, so this batched application equals the source's sequential
one. -/
def consolidate_devices (reg : List DeviceEntry) : List DeviceEntry × Nat :=
  ((reg.filter (fun d => ¬ (removedIdsOf reg).contains d.id)).map
      (applyUpd reg),
    (removedIdsOf reg).length)

/-! ## Telemetry sensors (`sensor.py`) -/

/-- `LancomBLEPacketsLastMinuteSensor.native_value` (`sensor.py` lines
168-180): 0 for an empty deque, else the count of timestamps in the
trailing 60 seconds. -/
def packetsLastMinuteValue (packet_times : List ℚ) (now : ℚ) : Int :=
  if packet_times = [] then 0
  else (packet_times.countP (fun t => now - 60 ≤ t) : Int)

/-- `LancomBLEPacketsLastHourSensor.native_value` (`sensor.py` lines
209-220). -/
def packetsLastHourValue (packet_times : List ℚ) (now : ℚ) : Int :=
  if packet_times = [] then 0
  else (packet_times.countP (fun t => now - 3600 ≤ t) : Int)

/-- `LancomBLEPacketsPerMinuteSensor.native_value` (`sensor.py` lines
251-267): `float(count_last_minute)` over the same 60-second window. -/
def packetsPerMinuteValue (packet_times : List ℚ) (now : ℚ) : ℚ :=
  if packet_times = [] then 0
  else (packet_times.countP (fun t => now - 60 ≤ t) : ℚ)

/-- C8: at every point in time and for every scanner, the per-minute-rate
sensor reports a value numerically identical to the trailing-60-seconds
packet-count sensor (both count the same deque with the same cutoff). -/
theorem c8_rate_equals_last_minute (sc : Scanner) (now : ℚ) :
    packetsPerMinuteValue sc.packet_times now =
      ((packetsLastMinuteValue sc.packet_times now : Int) : ℚ) := by
  unfold packetsPerMinuteValue packetsLastMinuteValue
  by_cases h : sc.packet_times = []
  · rw [if_pos h, if_pos h]
    norm_num
  · rw [if_neg h, if_neg h]
    push_cast
    ring

/-- C10: a measurement without a (truthy) `deviceAddress` is skipped
entirely: it changes nothing in the scanner state (daily counter, deque,
discovered peers, per-peer timestamps, last-detection marker), and
processing continues with the remaining measurements. -/
theorem c10_skip_empty_address (sc : Scanner) (e : Env) (m : Measurement)
    (pre post : List (Env × Measurement))
    (h : m.deviceAddress = none ∨ m.deviceAddress = some "") :
    sc.processMeasurement e m = sc ∧
    sc.injectBle (pre ++ (e, m) :: post) = sc.injectBle (pre ++ post) := by
  have hskip : ∀ s : Scanner, s.processMeasurement e m = s := by
    intro s
    unfold Scanner.processMeasurement
    rcases h with h | h
    · rw [h]
    · rw [h]
      simp
  refine ⟨hskip sc, ?_⟩
  unfold Scanner.injectBle
  rw [List.foldl_append, List.foldl_append, List.foldl_cons]
  rw [hskip _]

/-- Witness for C10 at a concrete empty-address measurement. -/
theorem c10_skip_empty_address_witness :
    (freshScanner "AA:BB:CC:DD:EE:FF" 0 "2025-01-01").processMeasurement
        ⟨0, "2025-01-01"⟩
        ⟨none, JsonVal.null, none, none⟩ =
      freshScanner "AA:BB:CC:DD:EE:FF" 0 "2025-01-01" ∧
    (freshScanner "AA:BB:CC:DD:EE:FF" 0 "2025-01-01").injectBle
        ([] ++ (⟨0, "2025-01-01"⟩, ⟨none, JsonVal.null, none, none⟩) :: []) =
      (freshScanner "AA:BB:CC:DD:EE:FF" 0 "2025-01-01").injectBle ([] ++ []) :=
  c10_skip_empty_address (freshScanner "AA:BB:CC:DD:EE:FF" 0 "2025-01-01")
    ⟨0, "2025-01-01"⟩ ⟨none, JsonVal.null, none, none⟩ [] [] (Or.inl rfl)

/-- C7: a webhook payload without a `deviceMac` field changes no manager
state (no scanner creation, no registry change); a malformed rssi value
(not an integer, float or numeric string) resolves to the default `-70`;
and the `-127` sentinel is remapped to `-70`. -/
theorem c7_webhook_defaults (st : ManagerState) (e : Env)
    (p : WebhookPayload) (v : JsonVal) :
    (p.deviceMac = none → manager_inject_ble st e p = st) ∧
    (malformedRssi v = true → resolveRssi v = -70) ∧
    resolveRssi (.int (-127)) = -70 := by
  refine ⟨?_, ?_, by decide⟩
  · intro h
    unfold manager_inject_ble
    rw [h]
  · intro h
    cases v with
    | null => rfl
    | other => rfl
    | bool b => simp [malformedRssi] at h
    | int n => simp [malformedRssi] at h
    | float q => simp [malformedRssi] at h
    | str s =>
        simp only [malformedRssi, Bool.and_eq_true, Option.isNone_iff_eq_none] at h
        simp [resolveRssi, safe_int, h.1, h.2]

/-- Witness for C7 at a concrete MAC-less payload and the malformed rssi
string `"abc"`. -/
theorem c7_webhook_defaults_witness :
    manager_inject_ble ⟨[], [], 0, 0, "entry1"⟩ ⟨0, "2025-01-01"⟩
        ⟨none, []⟩ = ⟨[], [], 0, 0, "entry1"⟩ ∧
    resolveRssi (.str "abc") = -70 ∧
    resolveRssi (.int (-127)) = -70 := by
  have h := c7_webhook_defaults ⟨[], [], 0, 0, "entry1"⟩ ⟨0, "2025-01-01"⟩
    ⟨none, []⟩ (.str "abc")
  exact ⟨h.1 rfl, h.2.1 (by decide), h.2.2⟩

/-! ## C6: at most one pending refresh timer per scanner -/

/-- The operations that touch a scanner's delayed-refresh timer:
self-advertisement, rename-reinjection, and the firing of a pending
timer. -/
inductive ScannerOp where
  | selfAdvert (e : Env) (base : String)
  | reinject (e : Env) (base : String)
  | fire (e : Env) (base : String)

def applyScannerOp (sc : Scanner) : ScannerOp → Scanner
  | .selfAdvert e base => sc.injectSelfAdvertCore e base
  | .reinject e base => sc.reinjectNameCore e base
  | .fire e base => sc.fireDelayed e base

def runScannerOps (sc : Scanner) (ops : List ScannerOp) : Scanner :=
  ops.foldl applyScannerOp sc

/-- The timer state a scanner maintains: the retained cancel handle refers
to exactly the armed timer, if any. -/
def TimerOk (sc : Scanner) : Prop :=
  (sc.delayed_task_cancel = none ∧ sc.armed_timers = []) ∨
  (∃ i, sc.delayed_task_cancel = some i ∧ sc.armed_timers = [i])

theorem timerOk_schedule {sc : Scanner} (h : TimerOk sc) :
    TimerOk sc.scheduleDelayedSelfAdvert := by
  rcases h with ⟨h1, h2⟩ | ⟨i, h1, h2⟩
  · right
    refine ⟨sc.next_timer_id, ?_, ?_⟩ <;>
      simp [Scanner.scheduleDelayedSelfAdvert, h1, h2]
  · right
    refine ⟨sc.next_timer_id, ?_, ?_⟩ <;>
      simp [Scanner.scheduleDelayedSelfAdvert, h1, h2, List.erase_cons]

theorem timerOk_apply {sc : Scanner} (op : ScannerOp) (h : TimerOk sc) :
    TimerOk (applyScannerOp sc op) := by
  cases op with
  | selfAdvert e base =>
      unfold applyScannerOp Scanner.injectSelfAdvertCore
      apply timerOk_schedule
      rcases h with ⟨h1, h2⟩ | ⟨i, h1, h2⟩
      · exact Or.inl ⟨h1, h2⟩
      · exact Or.inr ⟨i, h1, h2⟩
  | reinject e base =>
      unfold applyScannerOp Scanner.reinjectNameCore
      apply timerOk_schedule
      rcases h with ⟨h1, h2⟩ | ⟨i, h1, h2⟩
      · exact Or.inl ⟨h1, h2⟩
      · exact Or.inr ⟨i, h1, h2⟩
  | fire e base =>
      unfold applyScannerOp Scanner.fireDelayed
      rcases h with ⟨h1, h2⟩ | ⟨i, h1, h2⟩
      · rw [h2]
        exact Or.inl ⟨h1, h2⟩
      · rw [h2]
        exact Or.inl ⟨rfl, rfl⟩

/-- C6: starting from a fresh scanner, no sequence of self-advertisements,
rename-reinjections and timer firings can leave more than one pending
delayed-refresh timer, because `_schedule_delayed_self_advert` always
cancels the previously retained handle before arming a new timer. -/
theorem c6_at_most_one_timer (macU : String) (sid : Nat) (today : String)
    (ops : List ScannerOp) :
    (runScannerOps (freshScanner macU sid today) ops).armed_timers.length ≤ 1 := by
  have key : ∀ (l : List ScannerOp) (sc : Scanner), TimerOk sc →
      TimerOk (runScannerOps sc l) := by
    intro l
    induction l with
    | nil => intro sc h; exact h
    | cons op rest ih =>
        intro sc h
        exact ih _ (timerOk_apply op h)
  have h0 : TimerOk (freshScanner macU sid today) := Or.inl ⟨rfl, rfl⟩
  rcases key ops _ h0 with ⟨_, h2⟩ | ⟨i, _, h2⟩ <;> simp [h2]

/-! ## C5: `_record_packet` -/

/-- C5: `_record_packet` advances the daily counter by exactly one (after a
date-rollover reset), appends the current monotonic time and prunes the
deque front at the 24-hour cutoff; five recordings within one second on a
fresh scanner yield `packets_today = 5` and a trailing-60-seconds count of
5; and pruning a 25-hour-old deque entry leaves `packets_today`
unaffected. -/
theorem c5_record_packet (sc : Scanner) (e : Env) (macU d : String)
    (sid : Nat) (t1 t2 t3 t4 t5 : ℚ) :
    ((sc.recordPacket e).packets_today =
      (if e.today = sc.today_date then sc.packets_today else 0) + 1) ∧
    ((sc.recordPacket e).packet_times =
      (sc.packet_times ++ [e.now]).dropWhile
        (fun t => t < e.now - 24 * 3600)) ∧
    (t1 ≤ t2 → t2 ≤ t3 → t3 ≤ t4 → t4 ≤ t5 → t5 ≤ t1 + 1 →
      ((((((freshScanner macU sid d).recordPacket ⟨t1, d⟩).recordPacket
          ⟨t2, d⟩).recordPacket ⟨t3, d⟩).recordPacket
          ⟨t4, d⟩).recordPacket ⟨t5, d⟩).packets_today = 5 ∧
        packetsLastMinuteValue
          ((((((freshScanner macU sid d).recordPacket ⟨t1, d⟩).recordPacket
            ⟨t2, d⟩).recordPacket ⟨t3, d⟩).recordPacket
            ⟨t4, d⟩).recordPacket ⟨t5, d⟩).packet_times t5 = 5) ∧
    (sc.packet_times = [e.now - 90000] → e.today = sc.today_date →
      (sc.recordPacket e).packet_times = [e.now] ∧
      (sc.recordPacket e).packets_today = sc.packets_today + 1) := by
  refine ⟨?_, ?_, ?_, ?_⟩
  · unfold Scanner.recordPacket Scanner.rollTodayIfNeeded
    by_cases h : e.today = sc.today_date
    · rw [if_pos h]
      simp [h]
    · rw [if_neg h]
      simp [h]
  · unfold Scanner.recordPacket Scanner.rollTodayIfNeeded
    by_cases h : e.today = sc.today_date
    · simp [h]
    · simp [h]
  · intro h12 h23 h34 h45 h51
    have k2 : ¬ (t1 < t2 - 24 * 3600) := by linarith
    have k3 : ¬ (t1 < t3 - 24 * 3600) := by linarith
    have k4 : ¬ (t1 < t4 - 24 * 3600) := by linarith
    have k5 : ¬ (t1 < t5 - 24 * 3600) := by linarith
    have k1 : ¬ (t1 < t1 - 24 * 3600) := by linarith
    have hstate :
        ((((((freshScanner macU sid d).recordPacket ⟨t1, d⟩).recordPacket
          ⟨t2, d⟩).recordPacket ⟨t3, d⟩).recordPacket
          ⟨t4, d⟩).recordPacket ⟨t5, d⟩).packets_today = 5 ∧
        ((((((freshScanner macU sid d).recordPacket ⟨t1, d⟩).recordPacket
          ⟨t2, d⟩).recordPacket ⟨t3, d⟩).recordPacket
          ⟨t4, d⟩).recordPacket ⟨t5, d⟩).packet_times =
          [t1, t2, t3, t4, t5] := by
      unfold Scanner.recordPacket Scanner.rollTodayIfNeeded freshScanner
      simp [k1, k2, k3, k4, k5, List.dropWhile]
    refine ⟨hstate.1, ?_⟩
    rw [hstate.2]
    unfold packetsLastMinuteValue
    rw [if_neg (by simp)]
    have hall : ∀ t ∈ [t1, t2, t3, t4, t5],
        (fun t => decide (t5 - 60 ≤ t)) t = true := by
      intro t ht
      simp only [List.mem_cons, List.not_mem_nil, or_false] at ht
      rcases ht with rfl | rfl | rfl | rfl | rfl <;>
        (simp only [decide_eq_true_eq]; linarith)
    rw [List.countP_eq_length.mpr hall]
    rfl
  · intro hold htoday
    unfold Scanner.recordPacket Scanner.rollTodayIfNeeded
    rw [if_neg (by simp [htoday])]
    dsimp only
    rw [hold]
    constructor
    · have hb : e.now - 90000 < e.now - 24 * 3600 := by linarith
      have hb2 : ¬ (e.now < e.now - 24 * 3600) := by linarith
      simp [List.dropWhile, hb, hb2]
    · rfl

/-- Witness for C5 at a concrete scanner with a 25-hour-old deque entry and
five same-instant recordings. -/
theorem c5_record_packet_witness :
    (({ freshScanner "AA:BB:CC:DD:EE:FF" 0 "2025-01-01" with
        packet_times := [(-90000 : ℚ)] } : Scanner).recordPacket
        ⟨0, "2025-01-01"⟩).packets_today =
      (if "2025-01-01" = "2025-01-01" then 0 else 0) + 1 ∧
    ((((((freshScanner "AA:BB:CC:DD:EE:FF" 0 "2025-01-01").recordPacket
        ⟨0, "2025-01-01"⟩).recordPacket ⟨0, "2025-01-01"⟩).recordPacket
        ⟨0, "2025-01-01"⟩).recordPacket ⟨0, "2025-01-01"⟩).recordPacket
        ⟨0, "2025-01-01"⟩).packets_today = 5 ∧
    (({ freshScanner "AA:BB:CC:DD:EE:FF" 0 "2025-01-01" with
        packet_times := [(-90000 : ℚ)] } : Scanner).recordPacket
        ⟨0, "2025-01-01"⟩).packet_times = [(0 : ℚ)] := by
  have h := c5_record_packet
    ({ freshScanner "AA:BB:CC:DD:EE:FF" 0 "2025-01-01" with
        packet_times := [(-90000 : ℚ)] } : Scanner)
    ⟨0, "2025-01-01"⟩ "AA:BB:CC:DD:EE:FF" "2025-01-01" 0 0 0 0 0 0
  have h4 := h.2.2.2 (by norm_num) rfl
  have h3 := h.2.2.1 le_rfl le_rfl le_rfl le_rfl (by norm_num)
  exact ⟨h.1, h3.1, h4.1⟩

/-! ## C4: `maybe_align_device_name_with_user` -/

/-- A registry with one entry whose persistent name and user name are both
the already-clean `"Lancom AP"`. -/
def c4_registry : List DeviceEntry :=
  [{ id := 0,
     identifiers := [("lancom_ble", identifier_for "AA:BB:CC:DD:EE:FF")],
     connections := [("mac", "aa:bb:cc:dd:ee:ff")],
     name := some "Lancom AP",
     name_by_user := some "Lancom AP",
     config_entries := ["entry1"],
     manufacturer := none, model := none, sw_version := none }]

/-- C4 (counterexample): on `c4_registry` a user name exists and the
persistent name is generic-looking (it starts with `"Lancom AP"`), so the
claim demands an overwrite and `True`; but the cleaned user name equals the
current persistent name, and the source additionally requires
`current != cleaned`, so it changes nothing and returns `False`. -/
theorem c4_counterexample :
    (maybe_align_device_name_with_user c4_registry "AA:BB:CC:DD:EE:FF").2 =
      false ∧
    (maybe_align_device_name_with_user c4_registry "AA:BB:CC:DD:EE:FF").1 =
      c4_registry ∧
    truthyStr (c4_registry.headI.name_by_user) = true ∧
    startsWithStr "Lancom AP" (c4_registry.headI.name.getD "") = true := by
  refine ⟨?_, ?_, ?_, ?_⟩ <;> decide

/-- C4 (amended): for a MAC whose registry entry exists,
`maybe_align_device_name_with_user` overwrites the persistent name with the
cleaned user name and returns `true` exactly when a user name exists, the
current persistent name is generic-looking (equals the exact
default-with-MAC string or starts with `"Lancom AP"`), and the current
persistent name differs from the cleaned user name; in every other case it
changes nothing and returns `false`. -/
theorem c4_align_amended (reg : List DeviceEntry) (macU : String)
    (device : DeviceEntry)
    (hd : findByIdent reg (identifier_for macU) = some device) :
    if truthyStr device.name_by_user ∧
        (device.name.getD "" = "Lancom AP " ++ macU ∨
          startsWithStr "Lancom AP" (device.name.getD "")) ∧
        device.name.getD "" ≠
          cleanup_user_name (device.name_by_user.getD "") macU
    then maybe_align_device_name_with_user reg macU =
      (updateEntry reg device.id (fun d => { d with name := some (cleanup_user_name (device.name_by_user.getD "") macU) }), true)
    else maybe_align_device_name_with_user reg macU = (reg, false) := by
  unfold maybe_align_device_name_with_user
  rw [hd]
  dsimp only
  by_cases h1 : truthyStr device.name_by_user = true
  · rw [if_pos h1]
    by_cases h2 : (device.name.getD "" = "Lancom AP " ++ macU ∨
        startsWithStr "Lancom AP" (device.name.getD "") = true) ∧
        device.name.getD "" ≠
          cleanup_user_name (device.name_by_user.getD "") macU
    · rw [if_pos h2, if_pos ⟨h1, h2.1, h2.2⟩]
    · rw [if_neg h2, if_neg (fun hc => h2 ⟨hc.2.1, hc.2.2⟩)]
  · rw [if_neg h1, if_neg (fun hc => h1 hc.1)]

/-- Witness for C4 (amended) on a registry entry whose persistent name is
the MAC-qualified default and whose user name is `"Office"`. -/
theorem c4_align_amended_witness :
    maybe_align_device_name_with_user
      [{ id := 0,
         identifiers := [("lancom_ble", identifier_for "AA:BB:CC:DD:EE:FF")],
         connections := [("mac", "aa:bb:cc:dd:ee:ff")],
         name := some "Lancom AP AA:BB:CC:DD:EE:FF",
         name_by_user := some "Office",
         config_entries := ["entry1"],
         manufacturer := none, model := none, sw_version := none }]
      "AA:BB:CC:DD:EE:FF" =
    ([{ id := 0,
        identifiers := [("lancom_ble", identifier_for "AA:BB:CC:DD:EE:FF")],
        connections := [("mac", "aa:bb:cc:dd:ee:ff")],
        name := some "Office",
        name_by_user := some "Office",
        config_entries := ["entry1"],
        manufacturer := none, model := none, sw_version := none }], true) := by
  have h := c4_align_amended
    [{ id := 0,
       identifiers := [("lancom_ble", identifier_for "AA:BB:CC:DD:EE:FF")],
       connections := [("mac", "aa:bb:cc:dd:ee:ff")],
       name := some "Lancom AP AA:BB:CC:DD:EE:FF",
       name_by_user := some "Office",
       config_entries := ["entry1"],
       manufacturer := none, model := none, sw_version := none }]
    "AA:BB:CC:DD:EE:FF"
    { id := 0,
      identifiers := [("lancom_ble", identifier_for "AA:BB:CC:DD:EE:FF")],
      connections := [("mac", "aa:bb:cc:dd:ee:ff")],
      name := some "Lancom AP AA:BB:CC:DD:EE:FF",
      name_by_user := some "Office",
      config_entries := ["entry1"],
      manufacturer := none, model := none, sw_version := none }
    (by decide)
  rw [if_pos (by decide)] at h
  exact h.trans (by decide)

/-! ## C1: idempotence of `get_or_create_scanner` -/

/-- An entry related to a MAC in the sense of the host registry lookups the
create path performs: shares the canonical identifier or the `mac`
connection key. -/
def entryMatchesMac (d : DeviceEntry) (macU : String) : Bool :=
  d.identifiers.contains (DOMAIN, identifier_for macU) ∨
    d.connections.any (fun c => (mac_connection_only macU).contains c)

theorem countP_fst_zero_of_lookup_none {α : Type} {l : List (String × α)}
    {k : String} (h : lookupAssoc l k = none) :
    l.countP (fun p => p.1 = k) = 0 := by
  rw [List.countP_eq_zero]
  intro a ha
  have hf : l.find? (fun p => p.1 = k) = none := by
    unfold lookupAssoc at h
    exact Option.map_eq_none'.mp h
  exact List.find?_eq_none.mp hf a ha

theorem lookupAssoc_append_right {α : Type} {l1 : List (String × α)}
    (l2 : List (String × α)) {k : String} (h : lookupAssoc l1 k = none) :
    lookupAssoc (l1 ++ l2) k = lookupAssoc l2 k := by
  unfold lookupAssoc at h ⊢
  rw [List.find?_append]
  rw [Option.map_eq_none'.mp h]
  rfl

theorem lookupAssoc_cons_self {α : Type} {k : String} {v : α}
    {l : List (String × α)} : lookupAssoc ((k, v) :: l) k = some v := by
  unfold lookupAssoc
  rw [List.find?_cons_of_pos _ (by simp)]
  rfl

theorem lookupAssoc_updateAssoc_self {α : Type} {l : List (String × α)}
    {k : String} {v : α} : lookupAssoc (updateAssoc l k v) k = some v := by
  induction l with
  | nil => simp [updateAssoc, lookupAssoc]
  | cons p rest ih =>
      unfold updateAssoc
      by_cases h : p.1 = k
      · rw [if_pos h]
        exact lookupAssoc_cons_self
      · rw [if_neg h]
        unfold lookupAssoc at ih ⊢
        rw [List.find?_cons_of_neg _ (by simp [h])]
        exact ih

theorem countP_fst_updateAssoc {α : Type} {l : List (String × α)}
    {k : String} {v : α} {q : String}
    (h : lookupAssoc l k ≠ none) :
    (updateAssoc l k v).countP (fun p => p.1 = q) =
      l.countP (fun p => p.1 = q) := by
  induction l with
  | nil => exact absurd rfl h
  | cons p rest ih =>
      unfold updateAssoc
      by_cases hk : p.1 = k
      · rw [if_pos hk]
        simp only [List.countP_cons]
        congr 1
        simp [hk]
      · rw [if_neg hk]
        simp only [List.countP_cons]
        congr 1
        apply ih
        unfold lookupAssoc at h ⊢
        rw [List.find?_cons_of_neg _ (by simp [hk])] at h
        exact h

theorem countP_ident_updateEntry {reg : List DeviceEntry} {did : Nat}
    {f : DeviceEntry → DeviceEntry} {x : String × String}
    (hf : ∀ d, (f d).identifiers = d.identifiers) :
    (updateEntry reg did f).countP (fun d => d.identifiers.contains x) =
      reg.countP (fun d => d.identifiers.contains x) := by
  unfold updateEntry
  rw [List.countP_map]
  apply List.countP_congr
  intro d _
  simp only [Function.comp]
  by_cases h : d.id = did
  · rw [if_pos h, hf d]
  · rw [if_neg h]

theorem countP_ident_ensure_default (reg : List DeviceEntry) (macU : String)
    (x : String × String) :
    (ensure_device_registry_default_name reg macU).countP
        (fun d => d.identifiers.contains x) =
      reg.countP (fun d => d.identifiers.contains x) := by
  unfold ensure_device_registry_default_name
  cases hf : findByIdent reg (identifier_for macU) with
  | none => rfl
  | some device =>
      dsimp only
      by_cases h1 : truthyStr device.name_by_user = true
      · rw [if_pos h1]
      · rw [if_neg h1]
        by_cases h2 : device.name.getD "" ≠ "Lancom AP " ++ macU
        · rw [if_pos h2]
          exact countP_ident_updateEntry (fun d => rfl)
        · rw [if_neg h2]

theorem sid_injectSelfAdvertCore (sc : Scanner) (e : Env) (base : String) :
    (sc.injectSelfAdvertCore e base).sid = sc.sid := by
  unfold Scanner.injectSelfAdvertCore Scanner.scheduleDelayedSelfAdvert
    Scanner.injectAdv Scanner.setStamp
  cases sc.delayed_task_cancel <;> rfl

/-- Behavior of `get_or_create_scanner` when a scanner for the MAC already
exists: the per-MAC scanner count and every per-identifier registry count
are unchanged, and the returned scanner is the stored one (same identity). -/
theorem get_or_create_existing (st : ManagerState) (e : Env) (raw : String)
    (inj : Bool) (sc : Scanner) (x : String × String)
    (h : lookupAssoc st.scanners (format_ble_mac raw) = some sc) :
    ((get_or_create_scanner st e raw inj).1.scanners.countP
        (fun p => p.1 = format_ble_mac raw) =
      st.scanners.countP (fun p => p.1 = format_ble_mac raw)) ∧
    ((get_or_create_scanner st e raw inj).1.registry.countP
        (fun d => d.identifiers.contains x) =
      st.registry.countP (fun d => d.identifiers.contains x)) ∧
    (get_or_create_scanner st e raw inj).2.sid = sc.sid := by
  unfold get_or_create_scanner
  dsimp only
  rw [h]
  cases inj with
  | false => exact ⟨rfl, rfl, rfl⟩
  | true =>
      dsimp only
      refine ⟨?_, ?_, ?_⟩
      · exact countP_fst_updateAssoc (by rw [h]; exact fun hc => Option.noConfusion hc)
      · exact countP_ident_ensure_default _ _ _
      · exact sid_injectSelfAdvertCore sc e _

/-- Behavior of `get_or_create_scanner` on a MAC with no scanner and no
related registry entry: one scanner and one registry entry are created, the
created scanner is retrievable, and its id is the manager's next scanner
id. -/
theorem get_or_create_fresh (st : ManagerState) (e : Env) (raw : String)
    (inj : Bool)
    (hs : lookupAssoc st.scanners (format_ble_mac raw) = none)
    (hr : ∀ d ∈ st.registry, entryMatchesMac d (format_ble_mac raw) = false) :
    ((get_or_create_scanner st e raw inj).1.scanners.countP
        (fun p => p.1 = format_ble_mac raw) = 1) ∧
    (lookupAssoc (get_or_create_scanner st e raw inj).1.scanners
        (format_ble_mac raw) = some (get_or_create_scanner st e raw inj).2) ∧
    ((get_or_create_scanner st e raw inj).1.registry.countP
        (fun d => d.identifiers.contains
          (DOMAIN, identifier_for (format_ble_mac raw))) = 1) ∧
    (get_or_create_scanner st e raw inj).2.sid = st.next_scanner_id := by
  have hident0 : ∀ d ∈ st.registry,
      d.identifiers.contains
        (DOMAIN, identifier_for (format_ble_mac raw)) = false := by
    intro d hd
    have hm := hr d hd
    unfold entryMatchesMac at hm
    simp only [decide_eq_false_iff_not, not_or, Bool.not_eq_true] at hm
    exact hm.1
  have hru : register_or_update_device st (format_ble_mac raw) =
      { st with registry := st.registry ++ [newDeviceEntry st (format_ble_mac raw)],
                next_device_id := st.next_device_id + 1 } := by
    unfold register_or_update_device
    dsimp only
    have hf1 : findByIdent st.registry (identifier_for (format_ble_mac raw)) = none := by
      unfold findByIdent
      rw [List.find?_eq_none]
      intro d hd
      simpa using hident0 d hd
    rw [hf1]
    dsimp only
    have hf2 : st.registry.find? (fun d =>
        d.identifiers.contains (DOMAIN, identifier_for (format_ble_mac raw)) ∨
        d.connections.any (fun c =>
          (mac_connection_only (format_ble_mac raw)).contains c)) = none := by
      rw [List.find?_eq_none]
      intro d hd
      have hm := hr d hd
      unfold entryMatchesMac at hm
      rw [decide_eq_false_iff_not] at hm
      simpa using hm
    rw [hf2]
  have hcount_scanners : ∀ sc' : Scanner,
      (updateAssoc (st.scanners ++ [(format_ble_mac raw,
        freshScanner (format_ble_mac raw) st.next_scanner_id e.today)])
        (format_ble_mac raw) sc').countP (fun p => p.1 = format_ble_mac raw) = 1 := by
    intro sc'
    rw [countP_fst_updateAssoc]
    · rw [List.countP_append, countP_fst_zero_of_lookup_none hs]
      simp
    · rw [lookupAssoc_append_right _ hs, lookupAssoc_cons_self]
      exact fun hc => Option.noConfusion hc
  have hcount_reg1 :
      (st.registry ++ [newDeviceEntry st (format_ble_mac raw)]).countP
        (fun d => d.identifiers.contains
          (DOMAIN, identifier_for (format_ble_mac raw))) = 1 := by
    rw [List.countP_append]
    rw [List.countP_eq_zero.mpr (fun d hd => by simpa using hident0 d hd)]
    simp [newDeviceEntry]
  unfold get_or_create_scanner
  dsimp only
  rw [hs]
  dsimp only
  rw [hru]
  cases inj with
  | false =>
      simp only [Bool.false_eq_true, if_false]
      refine ⟨?_, ?_, ?_, rfl⟩
      · rw [List.countP_append, countP_fst_zero_of_lookup_none hs]
        simp
      · rw [lookupAssoc_append_right _ hs, lookupAssoc_cons_self]
      · rw [countP_ident_ensure_default]
        exact hcount_reg1
  | true =>
      rw [if_pos rfl]
      refine ⟨?_, ?_, ?_, ?_⟩
      · exact hcount_scanners _
      · exact lookupAssoc_updateAssoc_self
      · rw [countP_ident_ensure_default, countP_ident_ensure_default]
        exact hcount_reg1
      · exact sid_injectSelfAdvertCore _ _ _

/-- C1: calling `get_or_create_scanner` twice with
canonicalization-equivalent spellings of a MAC that is new to the manager
and to the registry leaves exactly one scanner for that MAC in the scanner
map and exactly one registry entry carrying its identifier, and the second
call returns the same scanner (same identity) as the first. -/
theorem c1_get_or_create_idempotent (st : ManagerState) (raw1 raw2 : String)
    (inj1 inj2 : Bool) (e1 e2 : Env)
    (hmac : format_ble_mac raw2 = format_ble_mac raw1)
    (hs : lookupAssoc st.scanners (format_ble_mac raw1) = none)
    (hr : ∀ d ∈ st.registry, entryMatchesMac d (format_ble_mac raw1) = false) :
    ((get_or_create_scanner (get_or_create_scanner st e1 raw1 inj1).1 e2 raw2
        inj2).1.scanners.countP (fun p => p.1 = format_ble_mac raw1) = 1) ∧
    ((get_or_create_scanner (get_or_create_scanner st e1 raw1 inj1).1 e2 raw2
        inj2).1.registry.countP (fun d => d.identifiers.contains
          (DOMAIN, identifier_for (format_ble_mac raw1))) = 1) ∧
    (get_or_create_scanner (get_or_create_scanner st e1 raw1 inj1).1 e2 raw2
        inj2).2.sid = (get_or_create_scanner st e1 raw1 inj1).2.sid := by
  obtain ⟨hc1, hl1, hreg1, _⟩ := get_or_create_fresh st e1 raw1 inj1 hs hr
  have hl1' : lookupAssoc (get_or_create_scanner st e1 raw1 inj1).1.scanners
      (format_ble_mac raw2) = some (get_or_create_scanner st e1 raw1 inj1).2 := by
    rw [hmac]
    exact hl1
  obtain ⟨hc2, hreg2, hsid2⟩ := get_or_create_existing
    (get_or_create_scanner st e1 raw1 inj1).1 e2 raw2 inj2
    (get_or_create_scanner st e1 raw1 inj1).2
    (DOMAIN, identifier_for (format_ble_mac raw1)) hl1'
  refine ⟨?_, ?_, hsid2⟩
  · rw [hmac] at hc2
    rw [hc2, hc1]
  · rw [hreg2, hreg1]

/-- Witness for C1: two spellings of the same MAC on an empty manager
state. -/
theorem c1_get_or_create_idempotent_witness :
    ((get_or_create_scanner
        (get_or_create_scanner ⟨[], [], 0, 0, "entry1"⟩ ⟨0, "2025-01-01"⟩
          "aa-bb-cc-dd-ee-ff" true).1
        ⟨1, "2025-01-01"⟩ "AA:BB:CC:DD:EE:FF" true).1.scanners.countP
      (fun p => p.1 = format_ble_mac "aa-bb-cc-dd-ee-ff") = 1) ∧
    ((get_or_create_scanner
        (get_or_create_scanner ⟨[], [], 0, 0, "entry1"⟩ ⟨0, "2025-01-01"⟩
          "aa-bb-cc-dd-ee-ff" true).1
        ⟨1, "2025-01-01"⟩ "AA:BB:CC:DD:EE:FF" true).1.registry.countP
      (fun d => d.identifiers.contains
        (DOMAIN, identifier_for (format_ble_mac "aa-bb-cc-dd-ee-ff"))) = 1) ∧
    (get_or_create_scanner
        (get_or_create_scanner ⟨[], [], 0, 0, "entry1"⟩ ⟨0, "2025-01-01"⟩
          "aa-bb-cc-dd-ee-ff" true).1
        ⟨1, "2025-01-01"⟩ "AA:BB:CC:DD:EE:FF" true).2.sid =
      (get_or_create_scanner ⟨[], [], 0, 0, "entry1"⟩ ⟨0, "2025-01-01"⟩
        "aa-bb-cc-dd-ee-ff" true).2.sid :=
  c1_get_or_create_idempotent ⟨[], [], 0, 0, "entry1"⟩ "aa-bb-cc-dd-ee-ff"
    "AA:BB:CC:DD:EE:FF" true true ⟨0, "2025-01-01"⟩ ⟨1, "2025-01-01"⟩
    (by decide) rfl (fun d hd => absurd hd (List.not_mem_nil d))

/-! ## C2: the consolidation post-conditions -/

theorem mem_groupKeys {reg : List DeviceEntry} {k : String} :
    k ∈ groupKeys reg ↔ ∃ d ∈ reg, groupKey d = some k := by
  unfold groupKeys firstOccurrences
  simp [List.mem_dedup, List.mem_filterMap]

theorem nodup_groupKeys (reg : List DeviceEntry) : (groupKeys reg).Nodup := by
  unfold groupKeys firstOccurrences
  rw [List.nodup_reverse]
  exact List.nodup_dedup _

theorem mem_keyFilter {reg : List DeviceEntry} {k : String} {d : DeviceEntry} :
    d ∈ keyFilter reg k ↔ d ∈ reg ∧ groupKey d = some k := by
  unfold keyFilter
  simp [List.mem_filter]

theorem groupKeys_of_two {reg : List DeviceEntry} {k : String}
    (h2 : 2 ≤ (keyFilter reg k).length) : k ∈ groupKeys reg := by
  have hne : keyFilter reg k ≠ [] := by
    intro hc
    rw [hc] at h2
    simp at h2
  obtain ⟨d, hd⟩ := List.exists_mem_of_ne_nil _ hne
  obtain ⟨hdr, hdk⟩ := mem_keyFilter.mp hd
  exact mem_groupKeys.mpr ⟨d, hdr, hdk⟩

theorem pickPrimary_mem {k : String} {ds : List DeviceEntry} (h : ds ≠ []) :
    pickPrimary k ds ∈ ds := by
  unfold pickPrimary
  cases hf : ds.find? (fun d =>
      d.identifiers.contains (DOMAIN, identifier_for k)) with
  | some p =>
      simp only [Option.getD_some]
      exact List.mem_of_find?_eq_some hf
  | none =>
      simp only [Option.getD_none]
      cases ds with
      | nil => exact absurd rfl h
      | cons a l => exact List.mem_cons_self a l

theorem pickPrimary_ident {k : String} {ds : List DeviceEntry}
    (h : ∃ d ∈ ds, d.identifiers.contains (DOMAIN, identifier_for k) = true) :
    (pickPrimary k ds).identifiers.contains (DOMAIN, identifier_for k) =
      true := by
  unfold pickPrimary
  cases hf : ds.find? (fun d =>
      d.identifiers.contains (DOMAIN, identifier_for k)) with
  | some p =>
      simp only [Option.getD_some]
      have hp := List.find?_some hf
      simpa using hp
  | none =>
      obtain ⟨d, hd, hdi⟩ := h
      have := List.find?_eq_none.mp hf d hd
      exact absurd hdi this

theorem entry_eq_of_id_eq {reg : List DeviceEntry}
    (hids : (reg.map (fun d => d.id)).Nodup) {d d' : DeviceEntry}
    (hd : d ∈ reg) (hd' : d' ∈ reg) (h : d.id = d'.id) : d = d' :=
  List.inj_on_of_nodup_map hids hd hd' h

theorem groupKey_some_shape {d : DeviceEntry} {k : String}
    (h : groupKey d = some k) : upperStr (lowerStr k) = k := by
  unfold groupKey at h
  by_cases ho : ownedByDomain d = true
  · rw [if_pos ho] at h
    cases hh : (macConns d).head? with
    | none =>
        rw [hh] at h
        exact absurd h (by simp)
    | some c =>
        rw [hh] at h
        simp only [Option.map_some'] at h
        obtain rfl : upperStr c.2 = k := Option.some.inj h
        exact upperStr_lowerStr_upperStr c.2
  · rw [if_neg ho] at h
    exact absurd h (by simp)

theorem groupKey_owned {d : DeviceEntry} {k : String}
    (h : groupKey d = some k) : ownedByDomain d = true := by
  unfold groupKey at h
  by_cases ho : ownedByDomain d = true
  · exact ho
  · rw [if_neg ho] at h
    exact absurd h (by simp)

theorem groupKey_set_desired {d : DeviceEntry} {k : String}
    (h : groupKey d = some k) :
    groupKey { d with connections := desiredConns k } = some k := by
  have hown := groupKey_owned h
  have hshape := groupKey_some_shape h
  unfold groupKey
  rw [if_pos (show ownedByDomain { d with connections := desiredConns k } =
    true from hown)]
  unfold macConns desiredConns mac_connection_only
  simp only [List.filter_cons, List.filter_nil]
  rw [if_pos (by simp)]
  simp only [List.head?_cons, Option.map_some']
  rw [hshape]

theorem mem_dupGroups {reg : List DeviceEntry}
    {g : String × List DeviceEntry} :
    g ∈ dupGroups reg ↔ ∃ k, k ∈ groupKeys reg ∧
      g = (k, keyFilter reg k) ∧ 2 ≤ (keyFilter reg k).length := by
  unfold dupGroups groupsOf
  rw [List.mem_filter, List.mem_map]
  constructor
  · rintro ⟨⟨k, hk, rfl⟩, hlen⟩
    exact ⟨k, hk, rfl, by simpa using hlen⟩
  · rintro ⟨k, hk, rfl, hlen⟩
    exact ⟨⟨k, hk, rfl⟩, by simpa using hlen⟩

theorem mem_removedIds {reg : List DeviceEntry} {x : Nat} :
    x ∈ removedIdsOf reg ↔ ∃ k, 2 ≤ (keyFilter reg k).length ∧
      ∃ d ∈ keyFilter reg k,
        d.id ≠ (pickPrimary k (keyFilter reg k)).id ∧ d.id = x := by
  unfold removedIdsOf
  rw [List.mem_flatMap]
  constructor
  · rintro ⟨g, hg, hx⟩
    obtain ⟨k, _, rfl, hlen⟩ := mem_dupGroups.mp hg
    simp only [List.mem_map, List.mem_filter] at hx
    obtain ⟨d, ⟨hd, hne⟩, rfl⟩ := hx
    exact ⟨k, hlen, d, hd, by simpa using hne, rfl⟩
  · rintro ⟨k, hlen, d, hd, hne, rfl⟩
    refine ⟨(k, keyFilter reg k),
      mem_dupGroups.mpr ⟨k, groupKeys_of_two hlen, rfl, hlen⟩, ?_⟩
    simp only [List.mem_map, List.mem_filter]
    exact ⟨d, ⟨hd, by simpa using hne⟩, rfl⟩

theorem mem_updates {reg : List DeviceEntry}
    {x : Nat} {cs : List (String × String)} :
    (x, cs) ∈ updatesOf reg ↔ ∃ k, 2 ≤ (keyFilter reg k).length ∧
      (pickPrimary k (keyFilter reg k)).id = x ∧ cs = desiredConns k ∧
      (pickPrimary k (keyFilter reg k)).connections ≠ desiredConns k := by
  unfold updatesOf
  rw [List.mem_filterMap]
  constructor
  · rintro ⟨g, hg, hx⟩
    obtain ⟨k, _, rfl, hlen⟩ := mem_dupGroups.mp hg
    dsimp only at hx
    by_cases hc : (pickPrimary k (keyFilter reg k)).connections =
        desiredConns k
    · rw [if_pos hc] at hx
      exact absurd hx (by simp)
    · rw [if_neg hc] at hx
      obtain ⟨h1, h2⟩ := Prod.mk.injEq .. ▸ Option.some.inj hx
      exact ⟨k, hlen, h1, h2.symm, hc⟩
  · rintro ⟨k, hlen, hid, rfl, hc⟩
    refine ⟨(k, keyFilter reg k),
      mem_dupGroups.mpr ⟨k, groupKeys_of_two hlen, rfl, hlen⟩, ?_⟩
    dsimp only
    rw [if_neg hc, hid]

theorem lookup_eq_some_of_uniq {x : Nat} {v : List (String × String)}
    {l : List (Nat × List (String × String))}
    (hmem : (x, v) ∈ l) (huniq : ∀ w, (x, w) ∈ l → w = v) :
    l.lookup x = some v := by
  induction l with
  | nil => exact absurd hmem (List.not_mem_nil _)
  | cons p rest ih =>
      unfold List.lookup
      cases hbeq : (x == p.1) with
      | true =>
          have hp : p.1 = x := (beq_iff_eq.mp hbeq).symm
          have hpv : p.2 = v := huniq p.2 (by
            rw [show (x, p.2) = p from Prod.ext hp.symm rfl]
            exact List.mem_cons_self p rest)
          rw [hpv]
      | false =>
          rcases List.mem_cons.mp hmem with heq | hmem'
          · rw [← heq] at hbeq
            simp at hbeq
          · exact ih hmem' (fun w hw => huniq w (List.mem_cons_of_mem p hw))

theorem lookup_eq_none_of_not_mem {x : Nat}
    {l : List (Nat × List (String × String))}
    (h : ∀ v, (x, v) ∉ l) : l.lookup x = none := by
  induction l with
  | nil => rfl
  | cons p rest ih =>
      unfold List.lookup
      cases hbeq : (x == p.1) with
      | true =>
          have hp : p.1 = x := (beq_iff_eq.mp hbeq).symm
          exact absurd (by
            rw [show (x, p.2) = p from Prod.ext hp.symm rfl]
            exact List.mem_cons_self p rest) (h p.2)
      | false => exact ih (fun v hv => h v (List.mem_cons_of_mem p hv))

theorem lookup_mem {x : Nat} {v : List (String × String)}
    {l : List (Nat × List (String × String))}
    (h : l.lookup x = some v) : (x, v) ∈ l := by
  induction l with
  | nil => exact absurd h (by simp [List.lookup])
  | cons p rest ih =>
      unfold List.lookup at h
      cases hbeq : (x == p.1) with
      | true =>
          have hp : p.1 = x := (beq_iff_eq.mp hbeq).symm
          rw [hbeq] at h
          obtain rfl := Option.some.inj h
          rw [show (x, p.2) = p from Prod.ext hp.symm rfl]
          exact List.mem_cons_self p rest
      | false =>
          rw [hbeq] at h
          exact List.mem_cons_of_mem p (ih h)

theorem applyUpd_id (reg : List DeviceEntry) (d : DeviceEntry) :
    (applyUpd reg d).id = d.id := by
  unfold applyUpd
  cases (updatesOf reg).lookup d.id <;> rfl

theorem applyUpd_identifiers (reg : List DeviceEntry) (d : DeviceEntry) :
    (applyUpd reg d).identifiers = d.identifiers := by
  unfold applyUpd
  cases (updatesOf reg).lookup d.id <;> rfl

theorem prim_mem_reg {reg : List DeviceEntry} {k : String}
    (h2 : 2 ≤ (keyFilter reg k).length) :
    pickPrimary k (keyFilter reg k) ∈ reg ∧
      groupKey (pickPrimary k (keyFilter reg k)) = some k := by
  have hne : keyFilter reg k ≠ [] := by
    intro hc
    rw [hc] at h2
    simp at h2
  exact mem_keyFilter.mp (pickPrimary_mem hne)

theorem applyUpd_groupKey {reg : List DeviceEntry}
    (hids : (reg.map (fun d => d.id)).Nodup) {d : DeviceEntry}
    (hd : d ∈ reg) : groupKey (applyUpd reg d) = groupKey d := by
  unfold applyUpd
  cases hl : (updatesOf reg).lookup d.id with
  | none => rfl
  | some cs =>
      obtain ⟨k, hlen, hid, rfl, _⟩ := mem_updates.mp (lookup_mem hl)
      obtain ⟨hpr, hpk⟩ := prim_mem_reg hlen
      have hdeq : d = pickPrimary k (keyFilter reg k) :=
        entry_eq_of_id_eq hids hd hpr hid.symm
      rw [hdeq, groupKey_set_desired hpk, hpk]

theorem applyUpd_prim_connections {reg : List DeviceEntry}
    (hids : (reg.map (fun d => d.id)).Nodup) {k : String}
    (h2 : 2 ≤ (keyFilter reg k).length) :
    (applyUpd reg (pickPrimary k (keyFilter reg k))).connections =
      desiredConns k := by
  obtain ⟨hpr, hpk⟩ := prim_mem_reg h2
  unfold applyUpd
  by_cases hc : (pickPrimary k (keyFilter reg k)).connections = desiredConns k
  · have hnone : (updatesOf reg).lookup
        (pickPrimary k (keyFilter reg k)).id = none := by
      cases hl : (updatesOf reg).lookup (pickPrimary k (keyFilter reg k)).id with
      | none => rfl
      | some cs =>
          obtain ⟨k', hlen', hid', rfl, hne'⟩ := mem_updates.mp (lookup_mem hl)
          obtain ⟨hpr', hpk'⟩ := prim_mem_reg hlen'
          have heq : pickPrimary k' (keyFilter reg k') =
              pickPrimary k (keyFilter reg k) :=
            entry_eq_of_id_eq hids hpr' hpr hid'
          have hkk : k' = k := by
            have h1 := hpk'
            rw [heq, hpk] at h1
            exact (Option.some.inj h1).symm
          rw [hkk] at hne'
          exact (hne' hc).elim
    rw [hnone]
    exact hc
  · have hmem : ((pickPrimary k (keyFilter reg k)).id, desiredConns k) ∈
        updatesOf reg := mem_updates.mpr ⟨k, h2, rfl, rfl, hc⟩
    have huniq : ∀ w, ((pickPrimary k (keyFilter reg k)).id, w) ∈
        updatesOf reg → w = desiredConns k := by
      intro w hw
      obtain ⟨k', hlen', hid', rfl, _⟩ := mem_updates.mp hw
      obtain ⟨hpr', hpk'⟩ := prim_mem_reg hlen'
      have heq : pickPrimary k' (keyFilter reg k') =
          pickPrimary k (keyFilter reg k) :=
        entry_eq_of_id_eq hids hpr' hpr hid'
      have hkk : k' = k := by
        have h1 := hpk'
        rw [heq, hpk] at h1
        exact (Option.some.inj h1).symm
      rw [hkk]
    rw [lookup_eq_some_of_uniq hmem huniq]

theorem removed_iff {reg : List DeviceEntry}
    (hids : (reg.map (fun d => d.id)).Nodup) {k : String} {d : DeviceEntry}
    (hd : d ∈ keyFilter reg k) :
    d.id ∈ removedIdsOf reg ↔
      (2 ≤ (keyFilter reg k).length ∧
        d.id ≠ (pickPrimary k (keyFilter reg k)).id) := by
  constructor
  · intro hmem
    obtain ⟨k', hlen', d', hd', hne', hdeq⟩ := mem_removedIds.mp hmem
    have hdd : d' = d := entry_eq_of_id_eq hids
      (mem_keyFilter.mp hd').1 (mem_keyFilter.mp hd).1 hdeq
    have hkk : k' = k := by
      have h1 := (mem_keyFilter.mp hd').2
      rw [hdd, (mem_keyFilter.mp hd).2] at h1
      exact (Option.some.inj h1).symm
    subst hkk
    rw [hdd] at hne'
    exact ⟨hlen', hne'⟩
  · rintro ⟨hlen, hne⟩
    exact mem_removedIds.mpr ⟨k, hlen, d, hd, hne, rfl⟩

theorem filter_eq_singleton_of_nodup {l : List DeviceEntry} {a : DeviceEntry}
    (hn : l.Nodup) (ha : a ∈ l) : l.filter (fun x => x = a) = [a] := by
  induction l with
  | nil => cases ha
  | cons b l' ih =>
      rcases List.mem_cons.mp ha with rfl | ha'
      · rw [List.filter_cons_of_pos (by simp)]
        have hnil : l'.filter (fun x => x = a) = [] := by
          rw [List.filter_eq_nil_iff]
          intro x hx
          simp only [decide_eq_true_eq]
          intro hxb
          rw [hxb] at hx
          exact (List.nodup_cons.mp hn).1 hx
        rw [hnil]
      · have hb : b ≠ a := by
          rintro rfl
          exact (List.nodup_cons.mp hn).1 ha'
        rw [List.filter_cons_of_neg (by simp [hb])]
        exact ih (List.nodup_cons.mp hn).2 ha'

theorem keyFilter_consolidated {reg : List DeviceEntry}
    (hids : (reg.map (fun d => d.id)).Nodup) (k : String) :
    keyFilter (consolidate_devices reg).1 k =
      ((keyFilter reg k).filter
        (fun d => ¬ (removedIdsOf reg).contains d.id)).map (applyUpd reg) := by
  unfold consolidate_devices
  dsimp only
  unfold keyFilter
  rw [List.filter_map]
  congr 1
  have hstep1 : (reg.filter (fun d => ¬ (removedIdsOf reg).contains d.id)).filter
      ((fun d => groupKey d = some k) ∘ applyUpd reg) =
      (reg.filter (fun d => ¬ (removedIdsOf reg).contains d.id)).filter
      (fun d => groupKey d = some k) := by
    apply List.filter_congr
    intro d hd
    have hdr : d ∈ reg := (List.mem_filter.mp hd).1
    simp only [Function.comp]
    rw [applyUpd_groupKey hids hdr]
  rw [hstep1]
  rw [List.filter_filter, List.filter_filter]
  apply List.filter_congr
  intro d _
  rw [Bool.and_comm]

theorem keyFilter_consolidated_dup {reg : List DeviceEntry}
    (hids : (reg.map (fun d => d.id)).Nodup) {k : String}
    (h2 : 2 ≤ (keyFilter reg k).length) :
    keyFilter (consolidate_devices reg).1 k =
      [applyUpd reg (pickPrimary k (keyFilter reg k))] := by
  rw [keyFilter_consolidated hids k]
  have hnodup : (keyFilter reg k).Nodup :=
    List.Nodup.filter _ (List.Nodup.of_map _ hids)
  have hne : keyFilter reg k ≠ [] := by
    intro hc
    rw [hc] at h2
    simp at h2
  have hprimmem : pickPrimary k (keyFilter reg k) ∈ keyFilter reg k :=
    pickPrimary_mem hne
  have hfil : (keyFilter reg k).filter
      (fun d => ¬ (removedIdsOf reg).contains d.id) =
      [pickPrimary k (keyFilter reg k)] := by
    have hcong : ∀ d ∈ keyFilter reg k,
        (decide (¬ (removedIdsOf reg).contains d.id = true)) =
          (decide (d = pickPrimary k (keyFilter reg k))) := by
      intro d hd
      rw [Bool.eq_iff_iff]
      simp only [decide_eq_true_eq]
      constructor
      · intro hnc
        have hnotmem : d.id ∉ removedIdsOf reg := by
          intro hmem
          exact hnc (by simpa using hmem)
        have hid : d.id = (pickPrimary k (keyFilter reg k)).id := by
          by_contra hneid
          exact hnotmem ((removed_iff hids hd).mpr ⟨h2, hneid⟩)
        exact entry_eq_of_id_eq hids (mem_keyFilter.mp hd).1
          (prim_mem_reg h2).1 hid
      · intro hdp
        intro hcont
        have hmem : d.id ∈ removedIdsOf reg := by simpa using hcont
        exact ((removed_iff hids hd).mp hmem).2 (by rw [hdp])
    rw [List.filter_congr hcong]
    exact filter_eq_singleton_of_nodup hnodup hprimmem
  rw [hfil]
  rfl

theorem countP_mem_eq_length {L R : List Nat} (hL : L.Nodup) (hR : R.Nodup)
    (hsub : ∀ x ∈ R, x ∈ L) :
    L.countP (fun x => R.contains x) = R.length := by
  induction L generalizing R with
  | nil =>
      have hRnil : R = [] :=
        List.eq_nil_iff_forall_not_mem.mpr
          (fun x hx => List.not_mem_nil x (hsub x hx))
      rw [hRnil]
      rfl
  | cons a L' ih =>
      rw [List.countP_cons]
      rcases List.nodup_cons.mp hL with ⟨haL, hL'⟩
      by_cases haR : a ∈ R
      · have hcont : (R.contains a) = true := by simpa using haR
        have hsub' : ∀ x ∈ R.erase a, x ∈ L' := by
          intro x hx
          obtain ⟨hxa, hxR⟩ := (hR.mem_erase_iff).mp hx
          rcases List.mem_cons.mp (hsub x hxR) with rfl | hxL'
          · exact absurd rfl hxa
          · exact hxL'
        have hcong : L'.countP (fun x => R.contains x) =
            L'.countP (fun x => (R.erase a).contains x) := by
          apply List.countP_congr
          intro x hx
          have hxa : x ≠ a := fun hc => haL (hc ▸ hx)
          rw [Bool.eq_iff_iff]
          constructor
          · intro hc
            have : x ∈ R := by simpa using hc
            have : x ∈ R.erase a := (List.mem_erase_of_ne hxa).mpr this
            simpa using this
          · intro hc
            have : x ∈ R.erase a := by simpa using hc
            have : x ∈ R := ((hR.mem_erase_iff).mp this).2
            simpa using this
        rw [hcont, hcong, ih hL' (hR.erase a) hsub',
          List.length_erase_of_mem haR]
        have hpos : 1 ≤ R.length := List.length_pos.mpr
          (fun hc => by rw [hc] at haR; exact List.not_mem_nil a haR)
        simp only [if_pos]
        omega
      · have hcont : (R.contains a) = false := by
          rw [← Bool.not_eq_true]
          intro hc
          exact haR (by simpa using hc)
        have hsub' : ∀ x ∈ R, x ∈ L' := by
          intro x hx
          rcases List.mem_cons.mp (hsub x hx) with rfl | hxL'
          · exact absurd hx haR
          · exact hxL'
        rw [hcont, ih hL' hR hsub']
        simp

theorem countP_add_countP_not {α : Type} (p : α → Bool) (l : List α) :
    l.countP p + l.countP (fun a => ! p a) = l.length := by
  induction l with
  | nil => rfl
  | cons a l ih =>
      simp only [List.countP_cons]
      by_cases h : p a <;> simp [h] <;> omega

theorem nodup_removedIds {reg : List DeviceEntry}
    (hids : (reg.map (fun d => d.id)).Nodup) :
    (removedIdsOf reg).Nodup := by
  unfold removedIdsOf
  rw [List.nodup_flatMap]
  constructor
  · intro g hg
    obtain ⟨k, _, rfl, _⟩ := mem_dupGroups.mp hg
    dsimp only
    have hsub : (((keyFilter reg k).filter (fun d =>
        d.id ≠ (pickPrimary k (keyFilter reg k)).id)).map (fun d => d.id)).Sublist
        (reg.map (fun d => d.id)) := by
      apply List.Sublist.map
      exact (List.filter_sublist _).trans (List.filter_sublist _)
    exact hids.sublist hsub
  · have hpw : List.Pairwise (fun g g' :
        String × List DeviceEntry => g.1 ≠ g'.1) (dupGroups reg) := by
      unfold dupGroups groupsOf
      apply List.Pairwise.filter
      rw [List.pairwise_map]
      exact nodup_groupKeys reg
    apply List.Pairwise.imp_of_mem ?_ hpw
    intro g g' hg hg' hne
    intro x hx hx'
    obtain ⟨k, _, rfl, _⟩ := mem_dupGroups.mp hg
    obtain ⟨k', _, rfl, _⟩ := mem_dupGroups.mp hg'
    dsimp only at hx hx' hne
    simp only [List.mem_map, List.mem_filter] at hx hx'
    obtain ⟨d, ⟨hd, _⟩, hdx⟩ := hx
    obtain ⟨d', ⟨hd', _⟩, hdx'⟩ := hx'
    have hdd : d = d' := entry_eq_of_id_eq hids (mem_keyFilter.mp hd).1
      (mem_keyFilter.mp hd').1 (by rw [hdx, hdx'])
    have h1 := (mem_keyFilter.mp hd).2
    have h2 := (mem_keyFilter.mp hd').2
    rw [hdd, h2] at h1
    exact hne (Option.some.inj h1).symm

theorem removedIds_sub {reg : List DeviceEntry} {x : Nat}
    (hx : x ∈ removedIdsOf reg) : x ∈ reg.map (fun d => d.id) := by
  obtain ⟨k, _, d, hd, _, rfl⟩ := mem_removedIds.mp hx
  exact List.mem_map.mpr ⟨d, (mem_keyFilter.mp hd).1, rfl⟩

/-- C2: on a registry with unique entry ids, `consolidate_devices`
guarantees: (1) at most one entry per MAC group key remains; (2) for every
MAC with at least two entries, exactly one survivor remains, it is the
picked primary (the entry with the canonical identifier when one exists),
and its connection set is exactly the canonical singleton
`{("mac", lowercase_mac)}`; (3) every other entry of that MAC is deleted;
(4) the returned count equals the number of deleted entries. -/
theorem c2_consolidate_devices (reg : List DeviceEntry)
    (hids : (reg.map (fun d => d.id)).Nodup) :
    (∀ k, (keyFilter (consolidate_devices reg).1 k).length ≤ 1) ∧
    (∀ k, 2 ≤ (keyFilter reg k).length →
      ∃ p, keyFilter (consolidate_devices reg).1 k = [p] ∧
        p.id = (pickPrimary k (keyFilter reg k)).id ∧
        p.connections = mac_connection_only k ∧
        ((∃ d ∈ keyFilter reg k,
            d.identifiers.contains (DOMAIN, identifier_for k) = true) →
          p.identifiers.contains (DOMAIN, identifier_for k) = true)) ∧
    (∀ k, 2 ≤ (keyFilter reg k).length →
      ∀ d ∈ keyFilter reg k, d.id ≠ (pickPrimary k (keyFilter reg k)).id →
        ∀ d' ∈ (consolidate_devices reg).1, d'.id ≠ d.id) ∧
    (consolidate_devices reg).2 =
      reg.length - (consolidate_devices reg).1.length := by
  refine ⟨?_, ?_, ?_, ?_⟩
  · intro k
    by_cases h2 : 2 ≤ (keyFilter reg k).length
    · rw [keyFilter_consolidated_dup hids h2]
      simp
    · rw [keyFilter_consolidated hids k, List.length_map]
      have hle := (List.filter_sublist (l := keyFilter reg k)
        (p := fun d => ¬ (removedIdsOf reg).contains d.id)).length_le
      omega
  · intro k h2
    refine ⟨applyUpd reg (pickPrimary k (keyFilter reg k)),
      keyFilter_consolidated_dup hids h2, applyUpd_id _ _, ?_, ?_⟩
    · rw [applyUpd_prim_connections hids h2]
      rfl
    · intro hex
      rw [applyUpd_identifiers]
      exact pickPrimary_ident hex
  · intro k h2 d hd hne d' hd'
    unfold consolidate_devices at hd'
    dsimp only at hd'
    obtain ⟨e, he, rfl⟩ := List.mem_map.mp hd'
    obtain ⟨_, hkeep⟩ := List.mem_filter.mp he
    rw [applyUpd_id]
    intro heq
    have hmem : d.id ∈ removedIdsOf reg := (removed_iff hids hd).mpr ⟨h2, hne⟩
    have hnc : ¬ ((removedIdsOf reg).contains e.id = true) := by
      simpa using hkeep
    exact hnc (by rw [heq]; simpa using hmem)
  · unfold consolidate_devices
    dsimp only
    rw [List.length_map]
    have hR := countP_mem_eq_length (L := reg.map (fun d => d.id))
      (R := removedIdsOf reg) hids (nodup_removedIds hids)
      (fun x hx => removedIds_sub hx)
    rw [List.countP_map] at hR
    have hR' : reg.countP
        (fun d => (removedIdsOf reg).contains d.id) =
        (removedIdsOf reg).length := by
      rw [← hR]
      apply List.countP_congr
      intro d _
      rfl
    have hcompl := countP_add_countP_not
      (fun d : DeviceEntry => (removedIdsOf reg).contains d.id) reg
    have hkeepeq : (reg.filter
        (fun d => ¬ (removedIdsOf reg).contains d.id)).length =
        reg.countP (fun d => ! (removedIdsOf reg).contains d.id) := by
      rw [← List.countP_eq_length_filter]
      apply List.countP_congr
      intro d _
      simp [decide_not]
    rw [hkeepeq]
    omega

/-- A registry with three duplicate entries sharing one MAC; the middle
entry carries the canonical identifier. -/
def c2_registry : List DeviceEntry :=
  [{ id := 0, identifiers := [("lancom_ble", "stale_a")],
     connections := [("mac", "aa:bb:cc:dd:ee:ff")],
     name := some "A", name_by_user := none, config_entries := ["entry1"],
     manufacturer := none, model := none, sw_version := none },
   { id := 1,
     identifiers := [("lancom_ble", identifier_for "AA:BB:CC:DD:EE:FF")],
     connections := [("mac", "AA:BB:CC:DD:EE:FF"), ("x", "y")],
     name := some "B", name_by_user := none, config_entries := ["entry1"],
     manufacturer := none, model := none, sw_version := none },
   { id := 2, identifiers := [("lancom_ble", "stale_c")],
     connections := [("mac", "aa:bb:cc:dd:ee:ff")],
     name := some "C", name_by_user := none, config_entries := ["entry1"],
     manufacturer := none, model := none, sw_version := none }]

/-- Witness for C2 on `c2_registry`. -/
theorem c2_consolidate_devices_witness :
    ((keyFilter (consolidate_devices c2_registry).1
        "AA:BB:CC:DD:EE:FF").length ≤ 1) ∧
    (∃ p, keyFilter (consolidate_devices c2_registry).1
        "AA:BB:CC:DD:EE:FF" = [p] ∧
      p.id = (pickPrimary "AA:BB:CC:DD:EE:FF"
        (keyFilter c2_registry "AA:BB:CC:DD:EE:FF")).id ∧
      p.connections = mac_connection_only "AA:BB:CC:DD:EE:FF" ∧
      ((∃ d ∈ keyFilter c2_registry "AA:BB:CC:DD:EE:FF",
          d.identifiers.contains
            (DOMAIN, identifier_for "AA:BB:CC:DD:EE:FF") = true) →
        p.identifiers.contains
          (DOMAIN, identifier_for "AA:BB:CC:DD:EE:FF") = true)) ∧
    ((consolidate_devices c2_registry).2 =
      c2_registry.length - (consolidate_devices c2_registry).1.length) ∧
    (consolidate_devices c2_registry).2 = 2 := by
  have h := c2_consolidate_devices c2_registry (by decide)
  exact ⟨h.1 "AA:BB:CC:DD:EE:FF",
    h.2.1 "AA:BB:CC:DD:EE:FF" (by decide), h.2.2.2, by decide⟩

end LancomBLE
